import Mathlib

/-!
Verification of the catscan poll-merge-diff-broadcast core.

This file gives a shallow embedding, in Lean 4, of the Go code of the
catscan repository: the entity model and lifecycle rule
(internal/model/repo.go), the merge engine (internal/scanner/merge.go),
the change detector and poll cycles (internal/poller), the durable
cache (internal/cache/cache.go), the SSE broadcast hub
(internal/sse/sse.go) and the gh-CLI error taxonomy
(internal/scanner, github scanner file).

Modelling conventions:
- Go `time.Time` values are modelled as integer hours since an arbitrary
  epoch; the Go zero time (`IsZero`) is modelled by the integer 0, matching
  the way the code itself conflates the zero value with "unset".
  `time.Duration.Hours()/24` followed by Go `int(...)` conversion is
  truncation toward zero, i.e. `Int.div`.
- Go maps are modelled as association lists; building a map from a list
  makes later entries win, so lookup is `find?` on the reversed list.
  Map-key uniqueness, guaranteed by Go, appears as `Nodup` hypotheses
  where a theorem needs it.
- Go string-typed enums (Lifecycle, ActionsStatus, Visibility) stay
  strings, keeping the zero value "" representable.
- Fallible operations return `Option`/`Except`; a nil-pointer dereference
  is modelled by `Option.none` propagating out of the function.
-/

namespace Catscan

/-! ## Entity model (internal/model/repo.go) -/

/-- Go constant `model.LifecycleOngoing`. -/
def LifecycleOngoing : String := "ongoing"

/-- Go constant `model.LifecycleMaintenance`. -/
def LifecycleMaintenance : String := "maintenance"

/-- Go constant `model.LifecycleStale`. -/
def LifecycleStale : String := "stale"

/-- Go constant `model.LifecycleAbandoned`. -/
def LifecycleAbandoned : String := "abandoned"

/-- Go constant `model.ActionsStatusPassing`. -/
def ActionsStatusPassing : String := "passing"

/-- Go constant `model.ActionsStatusFailing`. -/
def ActionsStatusFailing : String := "failing"

/-- Go constant `model.ActionsStatusNone`. -/
def ActionsStatusNone : String := "none"

/-- Go struct `model.ReleaseInfo`: tag name and published timestamp of a
release. `publishedAt` is a timestamp (hours, 0 = Go zero time). -/
structure ReleaseInfo where
  tagName : String
  publishedAt : Int
  deriving DecidableEq

/-- Completeness checks of a repository, as populated by
`scanner.Merge` (internal/scanner/merge.go); the struct declaration
itself lives in the model package. -/
structure CompletenessInfo where
  hasDescription : Bool := false
  hasTopics : Bool := false
  hasHomepage : Bool := false
  hasReadme : Bool := false
  hasLicense : Bool := false
  hasClaudeMd : Bool := false
  hasAgentsMd : Bool := false
  hasProjectJson : Bool := false
  deriving DecidableEq

/-- Go struct `model.Repo`: the canonical merged repository record.
Field defaults are the Go zero values. -/
structure Repo where
  name : String := ""
  fullName : String := ""
  visibility : String := ""
  cloned : Bool := false
  localPath : String := ""
  branch : String := ""
  dirty : Bool := false
  localLastCommit : Int := 0
  description : String := ""
  homepageURL : String := ""
  language : String := ""
  topics : List String := []
  hasPages : Bool := false
  completeness : CompletenessInfo := {}
  githubLastPush : Int := 0
  openPRs : Int := 0
  actionsStatus : String := ""
  latestRelease : Option ReleaseInfo := none
  newRelease : Bool := false
  lifecycle : String := ""
  deriving DecidableEq

/-- Go struct `model.LifecycleThresholds`. -/
structure LifecycleThresholds where
  staleDays : Int := 0
  abandonedDays : Int := 0
  deriving DecidableEq

/-- Age in whole days used by `ComputeLifecycle`:
`int(now.Sub(push).Hours() / 24)`, i.e. truncation toward zero of the
hour difference divided by 24. -/
def daysSince (now push : Int) : Int :=
  Int.tdiv (now - push) 24

/-- Go method `(*Repo).ComputeLifecycle` (internal/model/repo.go).
`now` is the current time (the Go code calls `time.Now()`). The guard
`r.githubLastPush ≠ 0` is Go's `!r.GitHubLastPush.IsZero()`. -/
def ComputeLifecycle (now : Int) (r : Repo) (th : LifecycleThresholds) : String :=
  if r.githubLastPush ≠ 0 ∧ daysSince now r.githubLastPush < th.staleDays then
    LifecycleOngoing
  else if r.openPRs > 0 then
    LifecycleOngoing
  else if r.actionsStatus ≠ "" ∧ r.actionsStatus ≠ ActionsStatusNone then
    LifecycleOngoing
  else if r.githubLastPush ≠ 0 ∧ th.staleDays ≤ daysSince now r.githubLastPush ∧
      daysSince now r.githubLastPush < th.abandonedDays then
    LifecycleStale
  else if r.githubLastPush ≠ 0 ∧ th.abandonedDays ≤ daysSince now r.githubLastPush then
    LifecycleAbandoned
  else
    LifecycleStale

example :
    ComputeLifecycle (35 * 24)
      { name := "t", githubLastPush := 24, openPRs := 0, actionsStatus := "none" }
      { staleDays := 30, abandonedDays := 90 } = LifecycleStale := by decide

example :
    ComputeLifecycle (29 * 24)
      { name := "t", githubLastPush := 0, openPRs := 0, actionsStatus := "none" }
      { staleDays := 30, abandonedDays := 90 } = LifecycleStale := by decide

example :
    ComputeLifecycle (100 * 24)
      { name := "t", githubLastPush := 24, openPRs := 0, actionsStatus := "" }
      { staleDays := 30, abandonedDays := 90 } = LifecycleAbandoned := by decide

/-- C1: with no open items and CI status none/absent, and thresholds
configured with staleDays < abandonedDays, `ComputeLifecycle` classifies
by age alone: ongoing iff age < staleThreshold, abandoned iff
age ≥ abandonedThreshold, stale otherwise; an unset push timestamp is
stale. Age equal to a threshold falls into the next bucket. -/
theorem C1_lifecycle_boundary (now : Int) (r : Repo) (th : LifecycleThresholds)
    (hpr : r.openPRs = 0)
    (hci : r.actionsStatus = "" ∨ r.actionsStatus = ActionsStatusNone)
    (hth : th.staleDays < th.abandonedDays) :
    (r.githubLastPush ≠ 0 →
      ((ComputeLifecycle now r th = LifecycleOngoing ↔
          daysSince now r.githubLastPush < th.staleDays) ∧
       (ComputeLifecycle now r th = LifecycleAbandoned ↔
          th.abandonedDays ≤ daysSince now r.githubLastPush) ∧
       (ComputeLifecycle now r th = LifecycleStale ↔
          (th.staleDays ≤ daysSince now r.githubLastPush ∧
           daysSince now r.githubLastPush < th.abandonedDays)))) ∧
    (r.githubLastPush = 0 → ComputeLifecycle now r th = LifecycleStale) := by
  have hciBranch : ¬ (r.actionsStatus ≠ "" ∧ r.actionsStatus ≠ ActionsStatusNone) := by
    rcases hci with h | h <;> simp [h, ActionsStatusNone]
  have hprBranch : ¬ (r.openPRs > 0) := by omega
  constructor
  · intro hset
    rcases lt_or_le (daysSince now r.githubLastPush) th.staleDays with hA | hge
    · have hval : ComputeLifecycle now r th = LifecycleOngoing := by
        unfold ComputeLifecycle
        rw [if_pos ⟨hset, hA⟩]
      refine ⟨iff_of_true hval hA, ?_, ?_⟩
      · exact iff_of_false (by rw [hval]; decide) (by omega)
      · exact iff_of_false (by rw [hval]; decide) (by omega)
    · rcases lt_or_le (daysSince now r.githubLastPush) th.abandonedDays with hB | hC
      · have hval : ComputeLifecycle now r th = LifecycleStale := by
          unfold ComputeLifecycle
          rw [if_neg (fun h => absurd h.2 (by omega)), if_neg hprBranch,
            if_neg hciBranch, if_pos ⟨hset, hge, hB⟩]
        refine ⟨?_, ?_, iff_of_true hval ⟨hge, hB⟩⟩
        · exact iff_of_false (by rw [hval]; decide) (by omega)
        · exact iff_of_false (by rw [hval]; decide) (by omega)
      · have hval : ComputeLifecycle now r th = LifecycleAbandoned := by
          unfold ComputeLifecycle
          rw [if_neg (fun h => absurd h.2 (by omega)), if_neg hprBranch,
            if_neg hciBranch, if_neg (fun h => absurd h.2.2 (by omega)),
            if_pos ⟨hset, hC⟩]
        refine ⟨?_, iff_of_true hval hC, ?_⟩
        · exact iff_of_false (by rw [hval]; decide) (by omega)
        · exact iff_of_false (by rw [hval]; decide) (by omega)
  · intro hzero
    unfold ComputeLifecycle
    rw [if_neg (fun h => absurd hzero h.1), if_neg hprBranch, if_neg hciBranch,
      if_neg (fun h => absurd hzero h.1), if_neg (fun h => absurd hzero h.1)]

/-- C1 witness: the theorem applied at a concrete record sitting exactly
at the stale threshold (age 30 days with a 30/90 configuration). -/
theorem C1_lifecycle_boundary_witness :
    ComputeLifecycle (30 * 24)
      { name := "w", githubLastPush := 0 - 0, openPRs := 0, actionsStatus := "none" }
      { staleDays := 30, abandonedDays := 90 } = LifecycleStale := by
  have h := C1_lifecycle_boundary (30 * 24)
    { name := "w", githubLastPush := 0 - 0, openPRs := 0, actionsStatus := "none" }
    { staleDays := 30, abandonedDays := 90 }
    (by decide) (Or.inr (by decide)) (by decide)
  exact h.2 (by decide)

/-! ## Scanner types (internal/scanner) -/

/-- Go struct `scanner.LocalRepo`: the local partial view of one entity.
`lastCommit` is a timestamp (hours, 0 = Go zero time). -/
structure LocalRepo where
  name : String := ""
  path : String := ""
  branch : String := ""
  dirty : Bool := false
  lastCommit : Int := 0
  deriving DecidableEq

/-- Go struct `scanner.PrimaryLanguage`. -/
structure PrimaryLanguage where
  name : String
  deriving DecidableEq

/-- Go struct `scanner.RepositoryTopic` (element of `GitHubRepo.Topics`
as consumed by `scanner.Merge`). -/
structure RepositoryTopic where
  name : String
  deriving DecidableEq

/-- Go struct `scanner.DefaultBranch`. -/
structure DefaultBranch where
  name : String
  deriving DecidableEq

/-- Go struct `scanner.LatestRelease`. In Go `publishedAt` is an RFC3339
string that `Merge` parses with the error ignored (zero time on
failure); here it is carried pre-parsed, 0 standing for absent or
unparsable. -/
structure LatestRelease where
  tagName : String := ""
  publishedAt : Int := 0
  deriving DecidableEq

/-- Go struct `scanner.FilePresence`. -/
structure FilePresence where
  hasREADME : Bool := false
  hasLICENSE : Bool := false
  hasCLAUDEmd : Bool := false
  hasAGENTSmd : Bool := false
  hasProjectJson : Bool := false
  deriving DecidableEq

/-- Go struct `scanner.GitHubRepo`: the remote partial view of one
entity. `pushedAt` models the Go RFC3339 string: `none` stands for the
empty or unparsable string, `some t` for a string parsing to time `t`. -/
structure GitHubRepo where
  name : String := ""
  description : String := ""
  visibility : String := ""
  homepageURL : String := ""
  primaryLanguage : Option PrimaryLanguage := none
  topics : List RepositoryTopic := []
  hasPages : Bool := false
  defaultBranch : Option DefaultBranch := none
  latestRelease : Option LatestRelease := none
  pushedAt : Option Int := none
  openPRs : Int := 0
  actionsStatus : String := ""
  filePresence : Option FilePresence := none
  deriving DecidableEq

/-- Go struct `cache.RepoStateEntry`. -/
structure RepoStateEntry where
  lastSeenReleaseTag : String := ""
  deriving DecidableEq

/-- Go type `cache.RepoState = map[string]*RepoStateEntry`, modelled as
an association list; a `none` value models a nil entry pointer. -/
abbrev RepoState := List (String × Option RepoStateEntry)

/-- Lookup in an association list built like a Go map: later entries
overwrite earlier ones, so the last binding wins. -/
def lastLookup {α : Type} (l : List (String × α)) (n : String) : Option α :=
  (l.reverse.find? (fun p => decide (p.1 = n))).map Prod.snd

/-- Lookup of the Go map `githubMap` that `Merge` builds from the
`githubRepos` slice (later list entries overwrite earlier ones). -/
def ghLookup (ghs : List GitHubRepo) (n : String) : Option GitHubRepo :=
  ghs.reverse.find? (fun g => decide (g.name = n))

/-- The set of names `allNames` that `Merge` iterates over: union of the
local map keys and the GitHub map keys; `dedup` realises map-key
uniqueness (iteration order of a Go map is unspecified anyway). -/
def mergeNames (localRepos : List (String × LocalRepo)) (ghs : List GitHubRepo) :
    List String :=
  (localRepos.map Prod.fst ++ ghs.map GitHubRepo.name).dedup

/-- Go constant `model.VisibilityPublic`. -/
def VisibilityPublic : String := "public"

/-- Go constant `model.VisibilityPrivate`. -/
def VisibilityPrivate : String := "private"

/-- Go function `scanner.parseVisibility`: defaults to private. -/
def parseVisibility (v : String) : String :=
  if v = "public" then VisibilityPublic
  else if v = "private" then VisibilityPrivate
  else VisibilityPrivate

/-- The GitHub block of `scanner.Merge` (internal/scanner/merge.go,
the `if hasGitHub` body): populates remote-derived fields of the record,
including the new-since-last-seen flag derived from the cursor map. -/
def applyGitHubData (name : String) (gh : GitHubRepo) (hasLocal : Bool)
    (state : RepoState) (r : Repo) : Repo :=
  let r :=
    match gh.primaryLanguage with
    | some lang => { r with fullName := lang.name ++ "/" ++ name, language := lang.name }
    | none => { r with fullName := name }
  let r := { r with
    visibility := parseVisibility gh.visibility,
    description := gh.description,
    homepageURL := gh.homepageURL,
    topics := gh.topics.map RepositoryTopic.name }
  let r :=
    match gh.pushedAt with
    | some t => { r with githubLastPush := t }
    | none => r
  let r := { r with openPRs := gh.openPRs, actionsStatus := gh.actionsStatus }
  let r := { r with completeness := { r.completeness with
    hasDescription := decide (gh.description ≠ ""),
    hasTopics := decide (gh.topics.length > 0),
    hasHomepage := decide (gh.homepageURL ≠ "") } }
  let r :=
    match gh.filePresence with
    | some fp => { r with completeness := { r.completeness with
        hasReadme := fp.hasREADME,
        hasLicense := fp.hasLICENSE,
        hasClaudeMd := fp.hasCLAUDEmd,
        hasAgentsMd := fp.hasAGENTSmd,
        hasProjectJson := fp.hasProjectJson } }
    | none => r
  let r :=
    match gh.latestRelease with
    | some rel =>
      { r with
        latestRelease := some { tagName := rel.tagName, publishedAt := rel.publishedAt },
        newRelease :=
          match lastLookup state name with
          | some (some entry) => decide (entry.lastSeenReleaseTag ≠ rel.tagName)
          | _ => true }
    | none => r
  let r :=
    if hasLocal then r
    else
      match gh.defaultBranch with
      | some db => { r with branch := db.name }
      | none => r
  r

/-- The local block of `scanner.Merge`: populates clone state and local
git facts, or synthesizes a best-guess local path. -/
def applyLocalData (name : String) (scanPath : String) (local? : Option LocalRepo)
    (r : Repo) : Repo :=
  match local? with
  | some lr =>
    { r with cloned := true, localPath := lr.path, branch := lr.branch,
             dirty := lr.dirty, localLastCommit := lr.lastCommit }
  | none =>
    { r with cloned := false, localPath := scanPath ++ "/" ++ name }

/-- One iteration of the `for name := range allNames` loop of
`scanner.Merge`: build the record for one name; lifecycle is computed
last. -/
def mergeOne (localRepos : List (String × LocalRepo)) (ghs : List GitHubRepo)
    (scanPath : String) (state : RepoState) (th : LifecycleThresholds) (now : Int)
    (name : String) : Repo :=
  let r2 := applyLocalData name scanPath (lastLookup localRepos name)
    (match ghLookup ghs name with
     | some gh =>
       applyGitHubData name gh (lastLookup localRepos name).isSome state { name := name }
     | none => { name := name })
  { r2 with lifecycle := ComputeLifecycle now r2 th }

/-- Go function `scanner.Merge` (internal/scanner/merge.go): combine the
local and GitHub partial views into the unified record list. `now` is
the current time consumed by the lifecycle computation. -/
def Merge (localRepos : List (String × LocalRepo)) (githubRepos : List GitHubRepo)
    (scanPath : String) (state : RepoState) (th : LifecycleThresholds) (now : Int) :
    List Repo :=
  (mergeNames localRepos githubRepos).map
    (mergeOne localRepos githubRepos scanPath state th now)

example :
    (Merge [("widget", { name := "widget", path := "/sc/widget", branch := "main" })]
      [{ name := "gadget", actionsStatus := "passing" }]
      "/sc" [] { staleDays := 30, abandonedDays := 90 } 1000).map Repo.name =
    ["widget", "gadget"] := by decide

example :
    (Merge [("widget", { name := "widget", path := "/sc/widget", branch := "main" })]
      [{ name := "gadget", actionsStatus := "passing" }]
      "/sc" [] { staleDays := 30, abandonedDays := 90 } 1000).map Repo.cloned =
    [true, false] := by decide

example :
    (Merge [] [{ name := "gadget", actionsStatus := "passing" }]
      "/sc" [] { staleDays := 30, abandonedDays := 90 } 1000).map Repo.localPath =
    ["/sc/gadget"] := by decide

example :
    (Merge [] [{ name := "g", latestRelease := some { tagName := "v2" } }]
      "/sc" [("g", some { lastSeenReleaseTag := "v1" })]
      { staleDays := 30, abandonedDays := 90 } 1000).map Repo.newRelease =
    [true] := by decide

example :
    (Merge [] [{ name := "g", latestRelease := some { tagName := "v2" } }]
      "/sc" [("g", some { lastSeenReleaseTag := "v2" })]
      { staleDays := 30, abandonedDays := 90 } 1000).map Repo.newRelease =
    [false] := by decide

/-! ## Field-level facts about the merge blocks -/

theorem applyGitHubData_name (nm : String) (gh : GitHubRepo) (hl : Bool)
    (st : RepoState) (r : Repo) :
    (applyGitHubData nm gh hl st r).name = r.name := by
  cases gh with
  | mk n1 d1 v1 h1 pl tp hp db lr pa op ac fp =>
    cases pl <;> cases pa <;> cases fp <;> cases lr <;> cases db <;> cases hl <;> rfl

theorem applyGitHubData_dirty (nm : String) (gh : GitHubRepo) (hl : Bool)
    (st : RepoState) (r : Repo) :
    (applyGitHubData nm gh hl st r).dirty = r.dirty := by
  cases gh with
  | mk n1 d1 v1 h1 pl tp hp db lr pa op ac fp =>
    cases pl <;> cases pa <;> cases fp <;> cases lr <;> cases db <;> cases hl <;> rfl

theorem applyGitHubData_localLastCommit (nm : String) (gh : GitHubRepo) (hl : Bool)
    (st : RepoState) (r : Repo) :
    (applyGitHubData nm gh hl st r).localLastCommit = r.localLastCommit := by
  cases gh with
  | mk n1 d1 v1 h1 pl tp hp db lr pa op ac fp =>
    cases pl <;> cases pa <;> cases fp <;> cases lr <;> cases db <;> cases hl <;> rfl

theorem applyGitHubData_cloned (nm : String) (gh : GitHubRepo) (hl : Bool)
    (st : RepoState) (r : Repo) :
    (applyGitHubData nm gh hl st r).cloned = r.cloned := by
  cases gh with
  | mk n1 d1 v1 h1 pl tp hp db lr pa op ac fp =>
    cases pl <;> cases pa <;> cases fp <;> cases lr <;> cases db <;> cases hl <;> rfl

theorem applyGitHubData_localPath (nm : String) (gh : GitHubRepo) (hl : Bool)
    (st : RepoState) (r : Repo) :
    (applyGitHubData nm gh hl st r).localPath = r.localPath := by
  cases gh with
  | mk n1 d1 v1 h1 pl tp hp db lr pa op ac fp =>
    cases pl <;> cases pa <;> cases fp <;> cases lr <;> cases db <;> cases hl <;> rfl

theorem applyGitHubData_release_none (nm : String) (gh : GitHubRepo) (hl : Bool)
    (st : RepoState) (r : Repo) (hrel : gh.latestRelease = none) :
    (applyGitHubData nm gh hl st r).newRelease = r.newRelease ∧
    (applyGitHubData nm gh hl st r).latestRelease = r.latestRelease := by
  cases gh with
  | mk n1 d1 v1 h1 pl tp hp db lr pa op ac fp =>
    cases lr with
    | none =>
      cases pl <;> cases pa <;> cases fp <;> cases db <;> cases hl <;> exact ⟨rfl, rfl⟩
    | some rel => exact absurd hrel (by simp)

theorem applyGitHubData_release_some (nm : String) (gh : GitHubRepo) (hl : Bool)
    (st : RepoState) (r : Repo) (rel : LatestRelease)
    (hrel : gh.latestRelease = some rel) :
    (applyGitHubData nm gh hl st r).newRelease =
      (match lastLookup st nm with
       | some (some entry) => decide (entry.lastSeenReleaseTag ≠ rel.tagName)
       | _ => true) ∧
    (applyGitHubData nm gh hl st r).latestRelease =
      some { tagName := rel.tagName, publishedAt := rel.publishedAt } := by
  cases gh with
  | mk n1 d1 v1 h1 pl tp hp db lr pa op ac fp =>
    cases lr with
    | none => exact absurd hrel (by simp)
    | some rel2 =>
      have : rel2 = rel := by simpa using hrel
      subst this
      cases pl <;> cases pa <;> cases fp <;> cases db <;> cases hl <;> exact ⟨rfl, rfl⟩

theorem applyLocalData_name (nm sp : String) (lo : Option LocalRepo) (r : Repo) :
    (applyLocalData nm sp lo r).name = r.name := by
  cases lo <;> rfl

theorem applyLocalData_newRelease (nm sp : String) (lo : Option LocalRepo) (r : Repo) :
    (applyLocalData nm sp lo r).newRelease = r.newRelease := by
  cases lo <;> rfl

theorem applyLocalData_latestRelease (nm sp : String) (lo : Option LocalRepo) (r : Repo) :
    (applyLocalData nm sp lo r).latestRelease = r.latestRelease := by
  cases lo <;> rfl

theorem mergeOne_name (l : List (String × LocalRepo)) (g : List GitHubRepo)
    (sp : String) (st : RepoState) (th : LifecycleThresholds) (now : Int) (n : String) :
    (mergeOne l g sp st th now n).name = n := by
  unfold mergeOne
  cases hgh : ghLookup g n <;>
    simp [hgh, applyLocalData_name, applyGitHubData_name]

theorem mergeOne_cloned (l : List (String × LocalRepo)) (g : List GitHubRepo)
    (sp : String) (st : RepoState) (th : LifecycleThresholds) (now : Int) (n : String) :
    (mergeOne l g sp st th now n).cloned = (lastLookup l n).isSome := by
  unfold mergeOne
  cases hlo : lastLookup l n <;> cases hgh : ghLookup g n <;>
    simp [hgh, hlo, applyLocalData]

theorem mergeOne_no_local (l : List (String × LocalRepo)) (g : List GitHubRepo)
    (sp : String) (st : RepoState) (th : LifecycleThresholds) (now : Int) (n : String)
    (hlo : lastLookup l n = none) :
    (mergeOne l g sp st th now n).localPath = sp ++ "/" ++ n ∧
    (mergeOne l g sp st th now n).cloned = false ∧
    (mergeOne l g sp st th now n).dirty = false ∧
    (mergeOne l g sp st th now n).localLastCommit = 0 := by
  unfold mergeOne
  cases hgh : ghLookup g n <;>
    simp [hgh, hlo, applyLocalData, applyGitHubData_dirty, applyGitHubData_localLastCommit]

/-! ## Change detector and poll cycles (internal/poller) -/

/-- The three typed delta events broadcast by
`(*Poller).detectAndEmitChanges`: `actions_changed`, `new_release` and
`pr_opened`, with their payload fields. -/
inductive DeltaEvent
  | actionsChanged (repo : String) (oldStatus newStatus : String)
  | newRelease (repo : String) (tagName : String) (released : Int)
  | prOpened (repo : String) (oldCount newCount : Int)
  deriving DecidableEq

/-- The repository name an event is about (the `repo` payload field). -/
def eventRepo : DeltaEvent → String
  | .actionsChanged r _ _ => r
  | .newRelease r _ _ => r
  | .prOpened r _ _ => r

/-- The `prevMap` lookup of `detectAndEmitChanges`: the map is built by
ranging over `previousRepos`, so the last record of a name wins. -/
def findPrev (prev : List Repo) (n : String) : Option Repo :=
  prev.reverse.find? (fun r => decide (r.name = n))

/-- The body of the `for _, newRepo := range newRepos` loop of
`detectAndEmitChanges`: hub events emitted for one record of the new
snapshot, in program order (actions change, new release, PR count
increase). A name absent from the previous snapshot emits nothing
(`continue`). The `new_release` broadcast reads
`newRepo.LatestRelease.TagName` without a nil check; a nil release there
is a nil-pointer dereference, modelled as `none`. Desktop notifications
are out-of-scope side effects and are not modelled. -/
def repoEvents (prev : List Repo) (r : Repo) : Option (List DeltaEvent) :=
  match findPrev prev r.name with
  | none => some []
  | some prevRepo =>
    let e1 : List DeltaEvent :=
      if prevRepo.actionsStatus ≠ r.actionsStatus then
        [DeltaEvent.actionsChanged r.name prevRepo.actionsStatus r.actionsStatus]
      else []
    let e3 : List DeltaEvent :=
      if r.openPRs > prevRepo.openPRs then
        [DeltaEvent.prOpened r.name prevRepo.openPRs r.openPRs]
      else []
    if r.newRelease then
      match r.latestRelease with
      | some rel =>
        some (e1 ++ [DeltaEvent.newRelease r.name rel.tagName rel.publishedAt] ++ e3)
      | none => none
    else
      some (e1 ++ e3)

/-- The loop of `detectAndEmitChanges` over the new snapshot. -/
def emitAll (prev : List Repo) : List Repo → Option (List DeltaEvent)
  | [] => some []
  | r :: rest => do
    let es ← repoEvents prev r
    let rest2 ← emitAll prev rest
    pure (es ++ rest2)

/-- Go method `(*Poller).detectAndEmitChanges` (poller package): compare
the new snapshot against the previous one and emit granular events, in
snapshot order. -/
def detectAndEmitChanges (prev next : List Repo) : Option (List DeltaEvent) :=
  emitAll prev next

example :
    detectAndEmitChanges
      [{ name := "a", actionsStatus := "passing", openPRs := 1 }]
      [{ name := "a", actionsStatus := "failing", openPRs := 3 },
       { name := "b", actionsStatus := "failing", openPRs := 9 }] =
    some [DeltaEvent.actionsChanged "a" "passing" "failing",
          DeltaEvent.prOpened "a" 1 3] := by decide

example :
    detectAndEmitChanges
      [{ name := "a", actionsStatus := "passing", openPRs := 3 }]
      [{ name := "a", actionsStatus := "passing", openPRs := 2 }] =
    some [] := by decide

/-- Go `(*Poller).updateReleaseState` inner assignment: create the state
entry if missing or nil, then set its last-seen tag. -/
def stateSet (state : RepoState) (n tag : String) : RepoState :=
  if state.any (fun p => decide (p.1 = n)) then
    state.map (fun p => if p.1 = n then (n, some { lastSeenReleaseTag := tag }) else p)
  else
    state ++ [(n, some { lastSeenReleaseTag := tag })]

/-- Go method `(*Poller).updateReleaseState` (poller package): record the
latest release tag of every repo that has a release; repos without a
release leave the cursor untouched. The subsequent `cache.WriteState`
call is modelled in the poll-cycle trace. -/
def updateReleaseState (state : RepoState) (repos : List Repo) : RepoState :=
  repos.foldl
    (fun st r =>
      match r.latestRelease with
      | some rel => stateSet st r.name rel.tagName
      | none => st)
    state

/-- The reconstruction of GitHub partial views from the cached snapshot
performed by `(*Poller).localPoll` (poller package): only identity and
metadata fields are copied; pushedAt, open-PR count, Actions status and
file presence are not, and neither is the new-release boolean. -/
def repoToGHPartial (repo : Repo) : GitHubRepo :=
  let gh : GitHubRepo :=
    { name := repo.name
      description := repo.description
      visibility := repo.visibility
      homepageURL := repo.homepageURL
      topics := repo.topics.map (fun t => { name := t })
      hasPages := repo.hasPages }
  let gh :=
    if repo.language ≠ "" then
      { gh with primaryLanguage := some { name := repo.language } }
    else gh
  match repo.latestRelease with
  | some rel =>
    { gh with latestRelease := some { tagName := rel.tagName, publishedAt := rel.publishedAt } }
  | none => gh

/-- The reconstruction of the local repo map from the cached snapshot
performed by `(*Poller).githubPoll`: only records with `Cloned` true are
included. -/
def cachedToLocalMap (cachedRepos : List Repo) : List (String × LocalRepo) :=
  (cachedRepos.filter (fun r => r.cloned)).map (fun r =>
    (r.name,
     { name := r.name, path := r.localPath, branch := r.branch,
       dirty := r.dirty, lastCommit := r.localLastCommit }))

/-- Typed errors of the gh-CLI scanner (github scanner file):
`ghNotFoundError`, `ghAuthError`, and any other error (`generic`). -/
inductive GHError
  | ghNotFoundError (msg : String)
  | ghAuthError (msg : String)
  | generic (msg : String)
  deriving DecidableEq

/-- Go function `scanner.IsGHNotFound`: a type assertion on the error
value, independent of the message string. -/
def IsGHNotFound : GHError → Bool
  | .ghNotFoundError _ => true
  | _ => false

/-- Go function `scanner.IsGHAuthError`: a type assertion on the error
value, independent of the message string. -/
def IsGHAuthError : GHError → Bool
  | .ghAuthError _ => true
  | _ => false

/-- Observable effects of one poll cycle, in program order: delta-event
broadcasts, cursor persistence (`cache.WriteState`), snapshot
persistence (`cache.WriteRepos`), full-snapshot broadcasts, and error
broadcasts with their machine-readable kind. -/
inductive Action
  | emitDelta (e : DeltaEvent)
  | persistState (st : RepoState)
  | persistSnapshot (repos : List Repo)
  | broadcastSnapshot (eventType : String) (repos : List Repo)
  | broadcastError (kind msg : String)
  deriving DecidableEq

/-- True of delta-event broadcasts. -/
def isDeltaBroadcast : Action → Bool
  | .emitDelta _ => true
  | _ => false

/-- True of snapshot persistence (`cache.WriteRepos`). -/
def isSnapshotPersist : Action → Bool
  | .persistSnapshot _ => true
  | _ => false

/-- True of full-snapshot broadcasts. -/
def isSnapshotBroadcast : Action → Bool
  | .broadcastSnapshot _ _ => true
  | _ => false

/-- Effect trace of Go method `(*Poller).localPoll` (poller package)
after local discovery: rebuild GitHub partials from the cached snapshot,
merge, detect and broadcast deltas, persist the snapshot, broadcast the
full snapshot. `none` models the nil-release panic inside
`detectAndEmitChanges`. -/
def localPollTrace (localRepos : List (String × LocalRepo)) (cachedRepos : List Repo)
    (prev : List Repo) (state : RepoState) (scanPath : String)
    (th : LifecycleThresholds) (now : Int) : Option (List Action) :=
  let githubRepos := cachedRepos.map repoToGHPartial
  let repos := Merge localRepos githubRepos scanPath state th now
  (detectAndEmitChanges prev repos).map (fun evts =>
    evts.map Action.emitDelta ++
    [Action.persistSnapshot repos, Action.broadcastSnapshot "repos_updated" repos])

/-- The error dispatch at the top of Go method `(*Poller).githubPoll`:
a typed not-found error and a typed auth error are broadcast as `error`
events with machine-readable kinds; any other error is only logged. In
every case `githubPoll` returns and the poller waits for its next
tick. -/
def ghErrorActions (e : GHError) : List Action :=
  if IsGHNotFound e then
    [Action.broadcastError "gh_not_found" "gh CLI not found. Please install gh CLI."]
  else if IsGHAuthError e then
    [Action.broadcastError "gh_auth_error" "gh CLI not authenticated. Please run 'gh auth login'."]
  else []

/-- Effect trace of Go method `(*Poller).githubPoll` (poller package):
on a listing error, dispatch it and return; otherwise rebuild the local
map from the cached snapshot, merge, detect and broadcast deltas,
persist the updated cursor map, persist the snapshot, broadcast the full
snapshot. The per-repo enrichment loop discards its results in this
revision and is not modelled. -/
def githubPollTrace (fetchResult : Except GHError (List GitHubRepo))
    (cachedRepos : List Repo) (prev : List Repo) (state : RepoState)
    (scanPath : String) (th : LifecycleThresholds) (now : Int) : Option (List Action) :=
  match fetchResult with
  | .error e => some (ghErrorActions e)
  | .ok githubRepos =>
    let localRepos := cachedToLocalMap cachedRepos
    let repos := Merge localRepos githubRepos scanPath state th now
    (detectAndEmitChanges prev repos).map (fun evts =>
      evts.map Action.emitDelta ++
      [Action.persistState (updateReleaseState state repos),
       Action.persistSnapshot repos,
       Action.broadcastSnapshot "github_updated" repos])

/-- Strict ordering of action kinds inside one trace: every action
satisfying `p` occurs strictly before every action satisfying `q`. -/
def eachBefore (p q : Action → Bool) (t : List Action) : Prop :=
  ∀ i j : Nat, ∀ a b : Action, t.get? i = some a → t.get? j = some b →
    p a = true → q b = true → i < j

/-! ## C3: merge completeness -/

theorem countP_name_eq_of_nodup (l : List String) (hnd : l.Nodup) (n : String) :
    l.countP (fun m => decide (m = n)) = if n ∈ l then 1 else 0 := by
  induction l with
  | nil => simp
  | cons a t ih =>
    rcases List.nodup_cons.mp hnd with ⟨ha, ht⟩
    by_cases h : a = n
    · subst h
      simp [List.countP_cons, ih ht, ha]
    · have hna : ¬ n = a := fun hn => h hn.symm
      simp [List.countP_cons, ih ht, h, hna]

theorem lastLookup_isSome_iff {α : Type} (l : List (String × α)) (n : String) :
    (lastLookup l n).isSome = true ↔ n ∈ l.map Prod.fst := by
  unfold lastLookup
  rw [Option.isSome_map']
  simp only [List.find?_isSome, List.mem_reverse, List.mem_map,
    decide_eq_true_eq]

theorem mem_merge_iff (l : List (String × LocalRepo)) (g : List GitHubRepo)
    (sp : String) (st : RepoState) (th : LifecycleThresholds) (now : Int)
    (r : Repo) :
    r ∈ Merge l g sp st th now ↔
      ∃ n ∈ mergeNames l g, r = mergeOne l g sp st th now n := by
  unfold Merge
  simp only [List.mem_map]
  constructor
  · rintro ⟨n, hn, he⟩; exact ⟨n, hn, he.symm⟩
  · rintro ⟨n, hn, he⟩; exact ⟨n, hn, he.symm⟩

/-- C3: every name in the union of the local and remote name sets
appears exactly once in the Merge output (and no other name appears);
a record is flagged cloned iff its name is a local map key; a record
with no local partial gets the synthesized path scan-root + "/" + name
and carries no local git facts. -/
theorem C3_merge_completeness (l : List (String × LocalRepo)) (g : List GitHubRepo)
    (sp : String) (st : RepoState) (th : LifecycleThresholds) (now : Int) :
    (∀ n : String,
      (Merge l g sp st th now).countP (fun r => decide (r.name = n)) =
        if n ∈ l.map Prod.fst ∨ n ∈ g.map GitHubRepo.name then 1 else 0) ∧
    (∀ r ∈ Merge l g sp st th now, (r.cloned = true ↔ r.name ∈ l.map Prod.fst)) ∧
    (∀ r ∈ Merge l g sp st th now, lastLookup l r.name = none →
      r.localPath = sp ++ "/" ++ r.name ∧ r.cloned = false ∧ r.dirty = false ∧
        r.localLastCommit = 0) := by
  refine ⟨?_, ?_, ?_⟩
  · intro n
    unfold Merge
    rw [List.countP_map]
    have hcongr :
        (mergeNames l g).countP
          ((fun r => decide (r.name = n)) ∘ mergeOne l g sp st th now) =
        (mergeNames l g).countP (fun m => decide (m = n)) := by
      apply List.countP_congr
      intro m _
      simp [Function.comp, mergeOne_name]
    have hnodup : (mergeNames l g).Nodup := by
      unfold mergeNames; exact List.nodup_dedup _
    rw [hcongr, countP_name_eq_of_nodup (mergeNames l g) hnodup n]
    have hmem : n ∈ mergeNames l g ↔
        n ∈ l.map Prod.fst ∨ n ∈ g.map GitHubRepo.name := by
      unfold mergeNames
      rw [List.mem_dedup, List.mem_append]
    by_cases h : n ∈ mergeNames l g
    · rw [if_pos h, if_pos (hmem.mp h)]
    · rw [if_neg h, if_neg (fun hc => h (hmem.mpr hc))]
  · intro r hr
    rcases (mem_merge_iff l g sp st th now r).mp hr with ⟨n, _, he⟩
    subst he
    rw [mergeOne_cloned, mergeOne_name]
    exact lastLookup_isSome_iff l n
  · intro r hr hlo
    rcases (mem_merge_iff l g sp st th now r).mp hr with ⟨n, _, he⟩
    subst he
    rw [mergeOne_name] at hlo ⊢
    exact mergeOne_no_local l g sp st th now n hlo

/-- C3 witness: the theorem applied to the local-widget / remote-gadget
scenario; gadget appears exactly once, is not cloned, and carries the
synthesized local path. -/
theorem C3_merge_completeness_witness :
    (Merge [("widget", { name := "widget", path := "/sc/widget", branch := "main" })]
        [{ name := "gadget", actionsStatus := "passing" }]
        "/sc" [] { staleDays := 30, abandonedDays := 90 } 1000).countP
      (fun r => decide (r.name = "gadget")) = 1 ∧
    (mergeOne [("widget", { name := "widget", path := "/sc/widget", branch := "main" })]
        [{ name := "gadget", actionsStatus := "passing" }]
        "/sc" [] { staleDays := 30, abandonedDays := 90 } 1000 "gadget").localPath =
      "/sc/gadget" := by
  have h := C3_merge_completeness
    [("widget", { name := "widget", path := "/sc/widget", branch := "main" })]
    [{ name := "gadget", actionsStatus := "passing" }]
    "/sc" [] { staleDays := 30, abandonedDays := 90 } 1000
  constructor
  · rw [h.1 "gadget"]; decide
  · have hm : (mergeOne [("widget", { name := "widget", path := "/sc/widget", branch := "main" })]
        [{ name := "gadget", actionsStatus := "passing" }]
        "/sc" [] { staleDays := 30, abandonedDays := 90 } 1000 "gadget") ∈
        Merge [("widget", { name := "widget", path := "/sc/widget", branch := "main" })]
        [{ name := "gadget", actionsStatus := "passing" }]
        "/sc" [] { staleDays := 30, abandonedDays := 90 } 1000 := by decide
    have h3 := h.2.2 _ hm (by decide)
    have := h3.1
    rw [mergeOne_name] at this
    rw [this]
    rfl

/-! ## C10: the new-release flag implies a present release -/

theorem mergeOne_newRelease_isSome (l : List (String × LocalRepo))
    (g : List GitHubRepo) (sp : String) (st : RepoState)
    (th : LifecycleThresholds) (now : Int) (n : String) :
    (mergeOne l g sp st th now n).newRelease = true →
    (mergeOne l g sp st th now n).latestRelease.isSome = true := by
  unfold mergeOne
  cases hgh : ghLookup g n with
  | none =>
    simp only [applyLocalData_newRelease, applyLocalData_latestRelease]
    intro hcontra
    exact absurd hcontra (by decide)
  | some gh =>
    cases hrel : gh.latestRelease with
    | none =>
      have hd := applyGitHubData_release_none n gh
        (lastLookup l n).isSome st { name := n } hrel
      simp only [applyLocalData_newRelease, applyLocalData_latestRelease, hd.1, hd.2]
      intro hcontra
      exact absurd hcontra (by decide)
    | some rel =>
      have hd := applyGitHubData_release_some n gh
        (lastLookup l n).isSome st { name := n } rel hrel
      simp only [applyLocalData_newRelease, applyLocalData_latestRelease, hd.1, hd.2]
      intro _
      rfl

theorem repoEvents_isSome_of_safe (prev : List Repo) (r : Repo)
    (hsafe : r.newRelease = true → r.latestRelease.isSome = true) :
    (repoEvents prev r).isSome = true := by
  unfold repoEvents
  cases findPrev prev r.name with
  | none => rfl
  | some p =>
    by_cases hnr : r.newRelease = true
    · cases hrel : r.latestRelease with
      | none =>
        have hs := hsafe hnr
        rw [hrel] at hs
        exact absurd hs (by decide)
      | some rel => simp [hnr, hrel]
    · simp [hnr]

theorem emitAll_isSome_of_safe (prev : List Repo) (next : List Repo)
    (hsafe : ∀ r ∈ next, r.newRelease = true → r.latestRelease.isSome = true) :
    (emitAll prev next).isSome = true := by
  induction next with
  | nil => rfl
  | cons r rest ih =>
    have h1 := repoEvents_isSome_of_safe prev r (hsafe r (by simp))
    have h2 := ih (fun x hx => hsafe x (by simp [hx]))
    rcases Option.isSome_iff_exists.mp h1 with ⟨es, hes⟩
    rcases Option.isSome_iff_exists.mp h2 with ⟨rest2, hrest⟩
    simp [emitAll, hes, hrest]

/-- C10: in every record produced by Merge the new-since-last-seen flag
implies a present latest release; consequently the change detector's
unguarded dereference of the release tag cannot fail on a freshly merged
snapshot (it returns a value, never the nil-dereference outcome). -/
theorem C10_newRelease_safety (l : List (String × LocalRepo)) (g : List GitHubRepo)
    (sp : String) (st : RepoState) (th : LifecycleThresholds) (now : Int) :
    (∀ r ∈ Merge l g sp st th now,
      r.newRelease = true → r.latestRelease.isSome = true) ∧
    (∀ prev : List Repo,
      (detectAndEmitChanges prev (Merge l g sp st th now)).isSome = true) := by
  have hall : ∀ r ∈ Merge l g sp st th now,
      r.newRelease = true → r.latestRelease.isSome = true := by
    intro r hr
    rcases (mem_merge_iff l g sp st th now r).mp hr with ⟨n, _, he⟩
    subst he
    exact mergeOne_newRelease_isSome l g sp st th now n
  exact ⟨hall, fun prev => emitAll_isSome_of_safe prev _ hall⟩

/-- C10 witness: the theorem applied to a snapshot whose only record
carries a fresh release; the merged flag is true, the release is
present, and the detector yields a defined event list. -/
theorem C10_newRelease_safety_witness :
    (∀ r ∈ Merge [] [{ name := "g", latestRelease := some { tagName := "v2" } }]
        "/sc" [] { staleDays := 30, abandonedDays := 90 } 1000,
      r.newRelease = true → r.latestRelease.isSome = true) ∧
    (detectAndEmitChanges
      [{ name := "g" }]
      (Merge [] [{ name := "g", latestRelease := some { tagName := "v2" } }]
        "/sc" [] { staleDays := 30, abandonedDays := 90 } 1000)).isSome = true := by
  have h := C10_newRelease_safety []
    [{ name := "g", latestRelease := some { tagName := "v2" } }]
    "/sc" [] { staleDays := 30, abandonedDays := 90 } 1000
  exact ⟨h.1, h.2 [{ name := "g" }]⟩

/-! ## C5: cursor semantics and idempotent release notification -/

theorem find?_key_map_replace (n : String) (v : String × Option RepoStateEntry)
    (lr : List (String × Option RepoStateEntry)) :
    (lr.map (fun p => if p.1 = n then (n, v.2) else p)).find?
        (fun p => decide (p.1 = n)) =
      if lr.any (fun p => decide (p.1 = n)) then some (n, v.2) else none := by
  induction lr with
  | nil => rfl
  | cons q t ih =>
    by_cases hq : q.1 = n
    · have hdq : (decide (q.1 = n)) = true := by simp [hq]
      rw [List.map_cons, if_pos hq, List.find?_cons_of_pos _ (by simp),
        List.any_cons, hdq, Bool.true_or]
      simp
    · have hdq : (decide (q.1 = n)) = false := by simp [hq]
      rw [List.map_cons, if_neg hq, List.find?_cons_of_neg _ (by simp [hq]), ih,
        List.any_cons, hdq, Bool.false_or]

theorem find?_key_map_replace_ne (n m : String) (v : Option RepoStateEntry)
    (hne : m ≠ n) (lr : List (String × Option RepoStateEntry)) :
    (lr.map (fun p => if p.1 = n then (n, v) else p)).find?
        (fun p => decide (p.1 = m)) =
      lr.find? (fun p => decide (p.1 = m)) := by
  induction lr with
  | nil => rfl
  | cons q t ih =>
    by_cases hq : q.1 = n
    · have hqm : ¬ (q.1 = m) := fun h => hne (h.symm.trans hq)
      have hnm : ¬ (n = m) := fun h => hne h.symm
      rw [List.map_cons, if_pos hq,
        List.find?_cons_of_neg _ (by simp only [decide_eq_true_eq]; exact hnm),
        List.find?_cons_of_neg _ (by simp [hqm]), ih]
    · by_cases hm : q.1 = m
      · rw [List.map_cons, if_neg hq,
          List.find?_cons_of_pos _ (by simp [hm]),
          List.find?_cons_of_pos _ (by simp [hm])]
      · rw [List.map_cons, if_neg hq,
          List.find?_cons_of_neg _ (by simp [hm]),
          List.find?_cons_of_neg _ (by simp [hm]), ih]

theorem lastLookup_stateSet_self (st : RepoState) (n tag : String) :
    lastLookup (stateSet st n tag) n =
      some (some { lastSeenReleaseTag := tag }) := by
  unfold stateSet lastLookup
  by_cases hany : st.any (fun p => decide (p.1 = n))
  · rw [if_pos hany]
    rw [← List.map_reverse]
    rw [find?_key_map_replace n (n, some { lastSeenReleaseTag := tag }) st.reverse]
    have hrev : st.reverse.any (fun p => decide (p.1 = n)) = true := by
      rw [List.any_reverse]; exact hany
    rw [hrev]
    rfl
  · rw [if_neg hany]
    simp [List.find?]

theorem lastLookup_stateSet_ne (st : RepoState) (n tag m : String) (hne : m ≠ n) :
    lastLookup (stateSet st n tag) m = lastLookup st m := by
  unfold stateSet lastLookup
  by_cases hany : st.any (fun p => decide (p.1 = n))
  · rw [if_pos hany, ← List.map_reverse,
      find?_key_map_replace_ne n m (some { lastSeenReleaseTag := tag }) hne]
  · rw [if_neg hany]
    have hnm : ¬ (n = m) := fun h => hne h.symm
    simp [List.find?, hnm]

theorem updateReleaseState_cursor (repos : List Repo) (st : RepoState)
    (n : String) (ri : ReleaseInfo)
    (hall : ∀ r ∈ repos, r.name = n → r.latestRelease = some ri)
    (hstart : lastLookup st n = some (some { lastSeenReleaseTag := ri.tagName }) ∨
      ∃ r ∈ repos, r.name = n) :
    lastLookup (updateReleaseState st repos) n =
      some (some { lastSeenReleaseTag := ri.tagName }) := by
  induction repos generalizing st with
  | nil =>
    rcases hstart with h | ⟨r, hr, _⟩
    · exact h
    · cases hr
  | cons r rest ih =>
    by_cases hrn : r.name = n
    · have hrel := hall r (by simp) hrn
      show lastLookup (updateReleaseState
        (match r.latestRelease with
         | some rel => stateSet st r.name rel.tagName
         | none => st) rest) n = _
      rw [hrel]
      apply ih
      · intro x hx hxn
        exact hall x (by simp [hx]) hxn
      · left
        rw [hrn, lastLookup_stateSet_self]
    · have hpres :
          lastLookup (match r.latestRelease with
            | some rel => stateSet st r.name rel.tagName
            | none => st) n = lastLookup st n := by
        cases r.latestRelease with
        | none => rfl
        | some rel =>
          exact lastLookup_stateSet_ne st r.name rel.tagName n fun h => hrn h.symm
      show lastLookup (updateReleaseState
        (match r.latestRelease with
         | some rel => stateSet st r.name rel.tagName
         | none => st) rest) n = _
      apply ih
      · intro x hx hxn
        exact hall x (by simp [hx]) hxn
      · rcases hstart with h | ⟨x, hx, hxn⟩
        · left; rw [hpres]; exact h
        · rcases List.mem_cons.mp hx with he | ht
          · exact absurd (he ▸ hxn) hrn
          · right; exact ⟨x, ht, hxn⟩

theorem mergeOne_newRelease_eq (l : List (String × LocalRepo)) (g : List GitHubRepo)
    (sp : String) (st : RepoState) (th : LifecycleThresholds) (now : Int)
    (n : String) :
    (mergeOne l g sp st th now n).newRelease =
      (match ghLookup g n with
       | some gh =>
         match gh.latestRelease with
         | some rel =>
           (match lastLookup st n with
            | some (some entry) => decide (entry.lastSeenReleaseTag ≠ rel.tagName)
            | _ => true)
         | none => false
       | none => false) := by
  unfold mergeOne
  cases hgh : ghLookup g n with
  | none =>
    simp only [applyLocalData_newRelease]
    all_goals rfl
  | some gh =>
    cases hrel : gh.latestRelease with
    | none =>
      have hd := applyGitHubData_release_none n gh
        (lastLookup l n).isSome st { name := n } hrel
      simp only [hrel]
      simp only [applyLocalData_newRelease, hd.1]
      all_goals rfl
    | some rel =>
      have hd := applyGitHubData_release_some n gh
        (lastLookup l n).isSome st { name := n } rel hrel
      simp only [hrel]
      simp only [applyLocalData_newRelease, hd.1]
      all_goals rfl

theorem mergeOne_latestRelease_eq (l : List (String × LocalRepo)) (g : List GitHubRepo)
    (sp : String) (st : RepoState) (th : LifecycleThresholds) (now : Int)
    (n : String) :
    (mergeOne l g sp st th now n).latestRelease =
      (match ghLookup g n with
       | some gh =>
         match gh.latestRelease with
         | some rel => some { tagName := rel.tagName, publishedAt := rel.publishedAt }
         | none => none
       | none => none) := by
  unfold mergeOne
  cases hgh : ghLookup g n with
  | none =>
    simp only [applyLocalData_latestRelease]
    all_goals rfl
  | some gh =>
    cases hrel : gh.latestRelease with
    | none =>
      have hd := applyGitHubData_release_none n gh
        (lastLookup l n).isSome st { name := n } hrel
      simp only [hrel]
      simp only [applyLocalData_latestRelease, hd.2]
      all_goals rfl
    | some rel =>
      have hd := applyGitHubData_release_some n gh
        (lastLookup l n).isSome st { name := n } rel hrel
      simp only [hrel]
      simp only [applyLocalData_latestRelease, hd.2]
      all_goals rfl

theorem ghLookup_some_facts (g : List GitHubRepo) (n : String) (gh : GitHubRepo)
    (hgh : ghLookup g n = some gh) :
    gh.name = n ∧ n ∈ g.map GitHubRepo.name := by
  have hp := List.find?_some hgh
  have hm := List.mem_of_find?_eq_some hgh
  have hname : gh.name = n := of_decide_eq_true hp
  refine ⟨hname, ?_⟩
  rw [← hname]
  exact List.mem_map_of_mem GitHubRepo.name (List.mem_reverse.mp hm)

/-- C5: for a record whose remote partial carries a latest release, the
new-since-last-seen flag is true iff the persisted cursor for that name
is absent, nil, or stores a different tag; an absent cursor always
yields true; and after the cursor map is updated from the merged
snapshot, re-merging the same release observation yields the flag false,
so no second release-published event can fire. -/
theorem C5_release_cursor_idempotence (l : List (String × LocalRepo))
    (g : List GitHubRepo) (sp : String) (st : RepoState)
    (th : LifecycleThresholds) (now : Int)
    (n : String) (gh : GitHubRepo) (rel : LatestRelease)
    (hgh : ghLookup g n = some gh) (hrel : gh.latestRelease = some rel) :
    (∀ r ∈ Merge l g sp st th now, r.name = n →
      (r.newRelease = true ↔
        ∀ entry : RepoStateEntry, lastLookup st n = some (some entry) →
          entry.lastSeenReleaseTag ≠ rel.tagName)) ∧
    (lastLookup st n = none →
      ∀ r ∈ Merge l g sp st th now, r.name = n → r.newRelease = true) ∧
    (∀ r2 ∈ Merge l g sp (updateReleaseState st (Merge l g sp st th now)) th now,
      r2.name = n → r2.newRelease = false) := by
  have hchar : ∀ st2 : RepoState, ∀ r ∈ Merge l g sp st2 th now, r.name = n →
      r.newRelease =
        (match lastLookup st2 n with
         | some (some entry) => decide (entry.lastSeenReleaseTag ≠ rel.tagName)
         | _ => true) := by
    intro st2 r hr hn
    rcases (mem_merge_iff l g sp st2 th now r).mp hr with ⟨m, _, he⟩
    have hm : m = n := by rw [← hn, he, mergeOne_name]
    subst hm
    rw [he, mergeOne_newRelease_eq]
    simp only [hgh, hrel]
  refine ⟨?_, ?_, ?_⟩
  · intro r hr hn
    rw [hchar st r hr hn]
    cases hlk : lastLookup st n with
    | none => simp
    | some e =>
      cases e with
      | none => simp
      | some entry =>
        simp only [decide_eq_true_eq]
        constructor
        · intro h e2 he2
          have heq : entry = e2 := Option.some.inj (Option.some.inj he2)
          exact heq ▸ h
        · intro h
          exact h entry rfl
  · intro hnone r hr hn
    rw [hchar st r hr hn]
    simp only [hnone]
  · intro r2 hr2 hn2
    have hcursor : lastLookup (updateReleaseState st (Merge l g sp st th now)) n =
        some (some { lastSeenReleaseTag := rel.tagName }) := by
      apply updateReleaseState_cursor (Merge l g sp st th now) st n
        { tagName := rel.tagName, publishedAt := rel.publishedAt }
      · intro r hr hn
        rcases (mem_merge_iff l g sp st th now r).mp hr with ⟨m, _, he⟩
        have hm : m = n := by rw [← hn, he, mergeOne_name]
        subst hm
        rw [he, mergeOne_latestRelease_eq]
        simp only [hgh, hrel]
      · right
        have hnmem : n ∈ mergeNames l g := by
          unfold mergeNames
          rw [List.mem_dedup, List.mem_append]
          exact Or.inr (ghLookup_some_facts g n gh hgh).2
        exact ⟨mergeOne l g sp st th now n,
          (mem_merge_iff l g sp st th now _).mpr ⟨n, hnmem, rfl⟩,
          mergeOne_name l g sp st th now n⟩
    rw [hchar (updateReleaseState st (Merge l g sp st th now)) r2 hr2 hn2]
    simp only [hcursor]
    simp

/-- C5 witness: the theorem applied at a single remote repo with release
tag v2 and an empty cursor map; the first merge flags the release as
new, the merge after the cursor update does not. -/
theorem C5_release_cursor_idempotence_witness :
    (mergeOne [] [{ name := "g", latestRelease := some { tagName := "v2" } }]
      "/sc" [] { staleDays := 30, abandonedDays := 90 } 1000 "g").newRelease = true ∧
    (mergeOne [] [{ name := "g", latestRelease := some { tagName := "v2" } }]
      "/sc"
      (updateReleaseState []
        (Merge [] [{ name := "g", latestRelease := some { tagName := "v2" } }]
          "/sc" [] { staleDays := 30, abandonedDays := 90 } 1000))
      { staleDays := 30, abandonedDays := 90 } 1000 "g").newRelease = false := by
  have h := C5_release_cursor_idempotence []
    [{ name := "g", latestRelease := some { tagName := "v2" } }]
    "/sc" [] { staleDays := 30, abandonedDays := 90 } 1000
    "g" { name := "g", latestRelease := some { tagName := "v2" } }
    { tagName := "v2" } (by decide) (by decide)
  constructor
  · exact h.2.1 (by decide) _ (by decide) (by decide)
  · exact h.2.2 _ (by decide) (by decide)
/-! ## C2: change-detector characterization -/

theorem emitAll_mem (prev : List Repo) (next : List Repo) (evts : List DeltaEvent)
    (h : emitAll prev next = some evts) (e : DeltaEvent) :
    e ∈ evts ↔ ∃ r, r ∈ next ∧ ∃ es, repoEvents prev r = some es ∧ e ∈ es := by
  induction next generalizing evts with
  | nil =>
    have hval : evts = [] := by
      have : some ([] : List DeltaEvent) = some evts := h
      exact (Option.some.inj this).symm
    subst hval
    simp
  | cons r rest ih =>
    cases h1 : repoEvents prev r with
    | none => rw [emitAll, h1] at h; cases h
    | some es =>
      cases h2 : emitAll prev rest with
      | none => rw [emitAll, h1, h2] at h; cases h
      | some rest2 =>
        rw [emitAll, h1, h2] at h
        have hval : es ++ rest2 = evts := Option.some.inj h
        subst hval
        rw [List.mem_append]
        constructor
        · rintro (hin | hin)
          · exact ⟨r, by simp, es, h1, hin⟩
          · rcases (ih rest2 h2).mp hin with ⟨x, hx, es2, hes2, hin2⟩
            exact ⟨x, by simp [hx], es2, hes2, hin2⟩
        · rintro ⟨x, hx, es2, hes2, hin2⟩
          rcases List.mem_cons.mp hx with hxr | hxr
          · subst hxr
            rw [h1] at hes2
            rw [Option.some.inj hes2]
            exact Or.inl hin2
          · exact Or.inr ((ih rest2 h2).mpr ⟨x, hxr, es2, hes2, hin2⟩)

theorem emitAll_some_forall (prev : List Repo) (next : List Repo)
    (evts : List DeltaEvent) (h : emitAll prev next = some evts) :
    ∀ r ∈ next, ∃ es, repoEvents prev r = some es := by
  induction next generalizing evts with
  | nil => intro r hr; cases hr
  | cons r rest ih =>
    cases h1 : repoEvents prev r with
    | none => rw [emitAll, h1] at h; cases h
    | some es =>
      cases h2 : emitAll prev rest with
      | none => rw [emitAll, h1, h2] at h; cases h
      | some rest2 =>
        intro x hx
        rcases List.mem_cons.mp hx with hxr | hxr
        · exact ⟨es, hxr ▸ h1⟩
        · exact ih rest2 h2 x hxr

theorem repoEvents_repo_name (prev : List Repo) (r : Repo) (es : List DeltaEvent)
    (h : repoEvents prev r = some es) :
    ∀ e ∈ es, eventRepo e = r.name := by
  unfold repoEvents at h
  cases hfp : findPrev prev r.name with
  | none =>
    rw [hfp] at h
    cases h
    intro e he
    cases he
  | some p =>
    rw [hfp] at h
    simp only at h
    by_cases hnr : r.newRelease = true
    · rw [if_pos hnr] at h
      cases hrel : r.latestRelease with
      | none => rw [hrel] at h; cases h
      | some rel =>
        rw [hrel] at h
        by_cases hA : p.actionsStatus ≠ r.actionsStatus
        · by_cases hP : r.openPRs > p.openPRs
          · rw [if_pos hA, if_pos hP] at h
            cases h
            intro e he
            simp at he
            rcases he with rfl | rfl | rfl <;> rfl
          · rw [if_pos hA, if_neg hP] at h
            cases h
            intro e he
            simp at he
            rcases he with rfl | rfl <;> rfl
        · by_cases hP : r.openPRs > p.openPRs
          · rw [if_neg hA, if_pos hP] at h
            cases h
            intro e he
            simp at he
            rcases he with rfl | rfl <;> rfl
          · rw [if_neg hA, if_neg hP] at h
            cases h
            intro e he
            simp at he
            subst he
            rfl
    · rw [if_neg hnr] at h
      by_cases hA : p.actionsStatus ≠ r.actionsStatus
      · by_cases hP : r.openPRs > p.openPRs
        · rw [if_pos hA, if_pos hP] at h
          cases h
          intro e he
          simp at he
          rcases he with rfl | rfl <;> rfl
        · rw [if_pos hA, if_neg hP] at h
          cases h
          intro e he
          simp at he
          subst he
          rfl
      · by_cases hP : r.openPRs > p.openPRs
        · rw [if_neg hA, if_pos hP] at h
          cases h
          intro e he
          simp at he
          subst he
          rfl
        · rw [if_neg hA, if_neg hP] at h
          cases h
          intro e he
          simp at he

theorem repoEvents_prOpened_mem (prev : List Repo) (r : Repo) (es : List DeltaEvent)
    (h : repoEvents prev r = some es) (n : String) (o m : Int) :
    DeltaEvent.prOpened n o m ∈ es ↔
      (n = r.name ∧ ∃ p, findPrev prev r.name = some p ∧
        p.openPRs < r.openPRs ∧ o = p.openPRs ∧ m = r.openPRs) := by
  unfold repoEvents at h
  cases hfp : findPrev prev r.name with
  | none =>
    rw [hfp] at h
    cases h
    simp [hfp]
  | some p =>
    rw [hfp] at h
    simp only at h
    by_cases hnr : r.newRelease = true
    · rw [if_pos hnr] at h
      cases hrel : r.latestRelease with
      | none => rw [hrel] at h; cases h
      | some rel =>
        rw [hrel] at h
        by_cases hA : p.actionsStatus ≠ r.actionsStatus
        · by_cases hP : r.openPRs > p.openPRs
          · rw [if_pos hA, if_pos hP] at h
            cases h
            simp [hfp, gt_iff_lt.mp hP] <;> tauto
          · rw [if_pos hA, if_neg hP] at h
            cases h
            simp [hfp] <;> (intro hn p2 hp2; subst hp2; omega)
        · by_cases hP : r.openPRs > p.openPRs
          · rw [if_neg hA, if_pos hP] at h
            cases h
            simp [hfp, gt_iff_lt.mp hP] <;> tauto
          · rw [if_neg hA, if_neg hP] at h
            cases h
            simp [hfp] <;> (intro hn p2 hp2; subst hp2; omega)
    · rw [if_neg hnr] at h
      by_cases hA : p.actionsStatus ≠ r.actionsStatus
      · by_cases hP : r.openPRs > p.openPRs
        · rw [if_pos hA, if_pos hP] at h
          cases h
          simp [hfp, gt_iff_lt.mp hP] <;> tauto
        · rw [if_pos hA, if_neg hP] at h
          cases h
          simp [hfp] <;> (intro hn p2 hp2; subst hp2; omega)
      · by_cases hP : r.openPRs > p.openPRs
        · rw [if_neg hA, if_pos hP] at h
          cases h
          simp [hfp, gt_iff_lt.mp hP] <;> tauto
        · rw [if_neg hA, if_neg hP] at h
          cases h
          simp [hfp] <;> (intro hn p2 hp2; subst hp2; omega)

theorem repoEvents_actionsChanged_mem (prev : List Repo) (r : Repo)
    (es : List DeltaEvent) (h : repoEvents prev r = some es)
    (n : String) (os ns : String) :
    DeltaEvent.actionsChanged n os ns ∈ es ↔
      (n = r.name ∧ ∃ p, findPrev prev r.name = some p ∧
        p.actionsStatus ≠ r.actionsStatus ∧ os = p.actionsStatus ∧
        ns = r.actionsStatus) := by
  unfold repoEvents at h
  cases hfp : findPrev prev r.name with
  | none =>
    rw [hfp] at h
    cases h
    simp [hfp]
  | some p =>
    rw [hfp] at h
    simp only at h
    by_cases hnr : r.newRelease = true
    · rw [if_pos hnr] at h
      cases hrel : r.latestRelease with
      | none => rw [hrel] at h; cases h
      | some rel =>
        rw [hrel] at h
        by_cases hA : p.actionsStatus ≠ r.actionsStatus
        · by_cases hP : r.openPRs > p.openPRs
          · rw [if_pos hA, if_pos hP] at h
            cases h
            simp [hfp, hA] <;> tauto
          · rw [if_pos hA, if_neg hP] at h
            cases h
            simp [hfp, hA] <;> tauto
        · by_cases hP : r.openPRs > p.openPRs
          · rw [if_neg hA, if_pos hP] at h
            cases h
            simp [hfp] <;> (intro hn p2 hp2; subst hp2; tauto)
          · rw [if_neg hA, if_neg hP] at h
            cases h
            simp [hfp] <;> (intro hn p2 hp2; subst hp2; tauto)
    · rw [if_neg hnr] at h
      by_cases hA : p.actionsStatus ≠ r.actionsStatus
      · by_cases hP : r.openPRs > p.openPRs
        · rw [if_pos hA, if_pos hP] at h
          cases h
          simp [hfp, hA] <;> tauto
        · rw [if_pos hA, if_neg hP] at h
          cases h
          simp [hfp, hA] <;> tauto
      · by_cases hP : r.openPRs > p.openPRs
        · rw [if_neg hA, if_pos hP] at h
          cases h
          simp [hfp] <;> (intro hn p2 hp2; subst hp2; tauto)
        · rw [if_neg hA, if_neg hP] at h
          cases h
          simp [hfp] <;> (intro hn p2 hp2; subst hp2; tauto)

/-- C2: when the change detector completes, it emits a pr_opened
(item-count-increased) event for a name iff that name is present in both
snapshots with a strictly larger open count in the new one; it emits an
actions_changed (CI-changed) event for a name iff the name is in both
snapshots and the status differs in any direction; and a name absent
from the previous snapshot gets no delta event of any kind. -/
theorem C2_change_detector (prev next : List Repo) (evts : List DeltaEvent)
    (hdet : detectAndEmitChanges prev next = some evts) :
    (∀ n : String,
      ((∃ o m, DeltaEvent.prOpened n o m ∈ evts) ↔
        ∃ r, r ∈ next ∧ r.name = n ∧
          ∃ p, findPrev prev n = some p ∧ p.openPRs < r.openPRs)) ∧
    (∀ n : String,
      ((∃ os ns, DeltaEvent.actionsChanged n os ns ∈ evts) ↔
        ∃ r, r ∈ next ∧ r.name = n ∧
          ∃ p, findPrev prev n = some p ∧ p.actionsStatus ≠ r.actionsStatus)) ∧
    (∀ n : String, findPrev prev n = none → ∀ e ∈ evts, eventRepo e ≠ n) := by
  refine ⟨?_, ?_, ?_⟩
  · intro n
    constructor
    · rintro ⟨o, m, he⟩
      rcases (emitAll_mem prev next evts hdet _).mp he with ⟨r, hr, es, hes, hmem⟩
      rcases (repoEvents_prOpened_mem prev r es hes n o m).mp hmem with
        ⟨hn, p, hp, hlt, _, _⟩
      exact ⟨r, hr, hn.symm, p, by rw [hn]; exact hp, hlt⟩
    · rintro ⟨r, hr, hn, p, hp, hlt⟩
      refine ⟨p.openPRs, r.openPRs, ?_⟩
      rcases emitAll_some_forall prev next evts hdet r hr with ⟨es, hes⟩
      apply (emitAll_mem prev next evts hdet _).mpr
      refine ⟨r, hr, es, hes, ?_⟩
      apply (repoEvents_prOpened_mem prev r es hes n p.openPRs r.openPRs).mpr
      exact ⟨hn.symm, p, by rw [hn]; exact hp, hlt, rfl, rfl⟩
  · intro n
    constructor
    · rintro ⟨os, ns, he⟩
      rcases (emitAll_mem prev next evts hdet _).mp he with ⟨r, hr, es, hes, hmem⟩
      rcases (repoEvents_actionsChanged_mem prev r es hes n os ns).mp hmem with
        ⟨hn, p, hp, hne, _, _⟩
      exact ⟨r, hr, hn.symm, p, by rw [hn]; exact hp, hne⟩
    · rintro ⟨r, hr, hn, p, hp, hne⟩
      refine ⟨p.actionsStatus, r.actionsStatus, ?_⟩
      rcases emitAll_some_forall prev next evts hdet r hr with ⟨es, hes⟩
      apply (emitAll_mem prev next evts hdet _).mpr
      refine ⟨r, hr, es, hes, ?_⟩
      apply (repoEvents_actionsChanged_mem prev r es hes n p.actionsStatus
        r.actionsStatus).mpr
      exact ⟨hn.symm, p, by rw [hn]; exact hp, hne, rfl, rfl⟩
  · intro n hnone e he hEq
    rcases (emitAll_mem prev next evts hdet _).mp he with ⟨r, hr, es, hes, hmem⟩
    have hname := repoEvents_repo_name prev r es hes e hmem
    have hrn : r.name = n := hname ▸ hEq
    unfold repoEvents at hes
    rw [hrn, hnone] at hes
    cases hes
    cases hmem

/-- C2 witness: the theorem applied to a two-record scenario where repo a
is in both snapshots with a PR increase and a CI change, and repo b is
new; the detector fires both events for a and nothing for b. -/
theorem C2_change_detector_witness :
    ((∃ o m, DeltaEvent.prOpened "a" o m ∈
        [DeltaEvent.actionsChanged "a" "passing" "failing",
         DeltaEvent.prOpened "a" 1 3]) ↔
      ∃ r, r ∈ [({ name := "a", actionsStatus := "failing", openPRs := 3 } : Repo),
          { name := "b", actionsStatus := "failing", openPRs := 9 }] ∧ r.name = "a" ∧
        ∃ p, findPrev [{ name := "a", actionsStatus := "passing", openPRs := 1 }] "a" =
            some p ∧ p.openPRs < r.openPRs) ∧
    (∀ e ∈ [DeltaEvent.actionsChanged "a" "passing" "failing",
        DeltaEvent.prOpened "a" 1 3], eventRepo e ≠ "b") := by
  have h := C2_change_detector
    [{ name := "a", actionsStatus := "passing", openPRs := 1 }]
    [{ name := "a", actionsStatus := "failing", openPRs := 3 },
     { name := "b", actionsStatus := "failing", openPRs := 9 }]
    [DeltaEvent.actionsChanged "a" "passing" "failing",
     DeltaEvent.prOpened "a" 1 3]
    (by decide)
  exact ⟨h.1 "a", h.2.2 "b" (by decide)⟩

/-! ## C4: intra-cycle ordering of persistence and broadcasts -/

theorem eachBefore_split (p q : Action → Bool) (xs ys : List Action)
    (hyp : ∀ a ∈ ys, p a = false) (hxq : ∀ a ∈ xs, q a = false) :
    eachBefore p q (xs ++ ys) := by
  intro i j a b ha hb hpa hqb
  by_cases hi : i < xs.length
  · by_cases hj : j < xs.length
    · rw [List.get?_append hj] at hb
      have hbm : b ∈ xs := List.get?_mem hb
      rw [hxq b hbm] at hqb
      cases hqb
    · omega
  · rw [List.get?_append_right (by omega)] at ha
    have ham : a ∈ ys := List.get?_mem ha
    rw [hyp a ham] at hpa
    cases hpa

theorem eachBefore_append_right (p q : Action → Bool) (xs ys : List Action)
    (hxp : ∀ a ∈ xs, p a = false) (hxq : ∀ a ∈ xs, q a = false)
    (hys : eachBefore p q ys) : eachBefore p q (xs ++ ys) := by
  intro i j a b ha hb hpa hqb
  by_cases hi : i < xs.length
  · rw [List.get?_append hi] at ha
    have ham : a ∈ xs := List.get?_mem ha
    rw [hxp a ham] at hpa
    cases hpa
  · by_cases hj : j < xs.length
    · rw [List.get?_append hj] at hb
      have hbm : b ∈ xs := List.get?_mem hb
      rw [hxq b hbm] at hqb
      cases hqb
    · rw [List.get?_append_right (by omega)] at ha
      rw [List.get?_append_right (by omega)] at hb
      have := hys (i - xs.length) (j - xs.length) a b ha hb hpa hqb
      omega

theorem eachBefore_pair (p q : Action → Bool) (x y : Action)
    (hqx : q x = false) (hpy : p y = false) : eachBefore p q [x, y] := by
  intro i j a b ha hb hpa hqb
  rcases i with _ | _ | i
  · rcases j with _ | _ | j
    · have hbx : b = x := by simpa using hb.symm
      rw [hbx, hqx] at hqb
      cases hqb
    · omega
    · simp at hb
  · have hay : a = y := by simpa using ha.symm
    rw [hay, hpy] at hpa
    cases hpa
  · simp at ha

theorem eachBefore_triple (p q : Action → Bool) (x y z : Action)
    (hqx : q x = false) (hqy : q y = false) (hpz : p z = false) :
    eachBefore p q [x, y, z] := by
  intro i j a b ha hb hpa hqb
  rcases j with _ | _ | _ | j
  · have hbx : b = x := by simpa using hb.symm
    rw [hbx, hqx] at hqb
    cases hqb
  · have hby : b = y := by simpa using hb.symm
    rw [hby, hqy] at hqb
    cases hqb
  · rcases i with _ | _ | _ | i
    · omega
    · omega
    · have haz : a = z := by simpa using ha.symm
      rw [haz, hpz] at hpa
      cases hpa
    · simp at ha
  · simp at hb

/-- C4 (amended): within every single poll cycle, local or remote,
persistence of the merged snapshot happens before the full-snapshot
broadcast; but every delta-event broadcast of the cycle happens before
persistence and before the full-snapshot broadcast, not after the
full-snapshot broadcast as the claim states. -/
theorem C4_cycle_ordering (localRepos : List (String × LocalRepo))
    (cachedRepos prev : List Repo) (state : RepoState) (scanPath : String)
    (th : LifecycleThresholds) (now : Int) :
    (∀ t, localPollTrace localRepos cachedRepos prev state scanPath th now = some t →
      eachBefore isSnapshotPersist isSnapshotBroadcast t ∧
      eachBefore isDeltaBroadcast isSnapshotPersist t ∧
      eachBefore isDeltaBroadcast isSnapshotBroadcast t) ∧
    (∀ ghs t,
      githubPollTrace (Except.ok ghs) cachedRepos prev state scanPath th now = some t →
      eachBefore isSnapshotPersist isSnapshotBroadcast t ∧
      eachBefore isDeltaBroadcast isSnapshotPersist t ∧
      eachBefore isDeltaBroadcast isSnapshotBroadcast t) := by
  constructor
  · intro t ht
    rcases Option.map_eq_some'.mp ht with ⟨evts, _, hshape⟩
    subst hshape
    have hdelta : ∀ a ∈ evts.map Action.emitDelta, isSnapshotPersist a = false ∧
        isSnapshotBroadcast a = false ∧ isDeltaBroadcast a = true := by
      intro a ha
      rcases List.mem_map.mp ha with ⟨e, _, he⟩
      subst he
      exact ⟨rfl, rfl, rfl⟩
    refine ⟨?_, ?_, ?_⟩
    · exact eachBefore_append_right _ _ _ _
        (fun a ha => (hdelta a ha).1) (fun a ha => (hdelta a ha).2.1)
        (eachBefore_pair _ _ _ _ rfl rfl)
    · exact eachBefore_split _ _ _ _
        (fun a ha => by rcases List.mem_cons.mp ha with h | h
                        · rw [h]; rfl
                        · simp at h; rw [h]; rfl)
        (fun a ha => (hdelta a ha).1)
    · exact eachBefore_split _ _ _ _
        (fun a ha => by rcases List.mem_cons.mp ha with h | h
                        · rw [h]; rfl
                        · simp at h; rw [h]; rfl)
        (fun a ha => (hdelta a ha).2.1)
  · intro ghs t ht
    rcases Option.map_eq_some'.mp ht with ⟨evts, _, hshape⟩
    subst hshape
    have hdelta : ∀ a ∈ evts.map Action.emitDelta, isSnapshotPersist a = false ∧
        isSnapshotBroadcast a = false ∧ isDeltaBroadcast a = true := by
      intro a ha
      rcases List.mem_map.mp ha with ⟨e, _, he⟩
      subst he
      exact ⟨rfl, rfl, rfl⟩
    refine ⟨?_, ?_, ?_⟩
    · exact eachBefore_append_right _ _ _ _
        (fun a ha => (hdelta a ha).1) (fun a ha => (hdelta a ha).2.1)
        (eachBefore_triple _ _ _ _ _ rfl rfl rfl)
    · exact eachBefore_split _ _ _ _
        (fun a ha => by
          rcases List.mem_cons.mp ha with h | h
          · rw [h]; rfl
          · rcases List.mem_cons.mp h with h2 | h2
            · rw [h2]; rfl
            · simp at h2; rw [h2]; rfl)
        (fun a ha => (hdelta a ha).1)
    · exact eachBefore_split _ _ _ _
        (fun a ha => by
          rcases List.mem_cons.mp ha with h | h
          · rw [h]; rfl
          · rcases List.mem_cons.mp h with h2 | h2
            · rw [h2]; rfl
            · simp at h2; rw [h2]; rfl)
        (fun a ha => (hdelta a ha).2.1)

/-- C4 counterexample: a concrete local poll cycle with one CI-change
delta event; the delta broadcast happens at index 0, strictly before the
full-snapshot broadcast at index 2, so the claimed
"full-snapshot broadcast before any delta broadcast" ordering is false
on the code. -/
theorem C4_counterexample :
    ¬ eachBefore isSnapshotBroadcast isDeltaBroadcast
      ((localPollTrace [] [{ name := "a" }]
        [{ name := "a", actionsStatus := "passing" }] [] "/sc"
        { staleDays := 30, abandonedDays := 90 } 0).getD []) := by
  intro h
  cases hg2 : ((localPollTrace [] [{ name := "a" }]
      [{ name := "a", actionsStatus := "passing" }] [] "/sc"
      { staleDays := 30, abandonedDays := 90 } 0).getD []).get? 2 with
  | none => exact absurd hg2 (by decide)
  | some a2 =>
    cases hg0 : ((localPollTrace [] [{ name := "a" }]
        [{ name := "a", actionsStatus := "passing" }] [] "/sc"
        { staleDays := 30, abandonedDays := 90 } 0).getD []).get? 0 with
    | none => exact absurd hg0 (by decide)
    | some a0 =>
      have hp2 : isSnapshotBroadcast a2 = true := by
        have hcomp : (((localPollTrace [] [{ name := "a" }]
            [{ name := "a", actionsStatus := "passing" }] [] "/sc"
            { staleDays := 30, abandonedDays := 90 } 0).getD []).get? 2).elim
            false isSnapshotBroadcast = true := by decide
        rw [hg2] at hcomp
        exact hcomp
      have hp0 : isDeltaBroadcast a0 = true := by
        have hcomp : (((localPollTrace [] [{ name := "a" }]
            [{ name := "a", actionsStatus := "passing" }] [] "/sc"
            { staleDays := 30, abandonedDays := 90 } 0).getD []).get? 0).elim
            false isDeltaBroadcast = true := by decide
        rw [hg0] at hcomp
        exact hcomp
      exact absurd (h 2 0 a2 a0 hg2 hg0 hp2 hp0) (by omega)

/-- C4 witness: the amended ordering applied to the same concrete local
cycle used by the counterexample. -/
theorem C4_cycle_ordering_witness :
    eachBefore isSnapshotPersist isSnapshotBroadcast
      ((localPollTrace [] [{ name := "a" }]
        [{ name := "a", actionsStatus := "passing" }] [] "/sc"
        { staleDays := 30, abandonedDays := 90 } 0).getD []) ∧
    eachBefore isDeltaBroadcast isSnapshotPersist
      ((localPollTrace [] [{ name := "a" }]
        [{ name := "a", actionsStatus := "passing" }] [] "/sc"
        { staleDays := 30, abandonedDays := 90 } 0).getD []) := by
  have h := (C4_cycle_ordering [] [{ name := "a" }]
    [{ name := "a", actionsStatus := "passing" }] [] "/sc"
    { staleDays := 30, abandonedDays := 90 } 0).1
    ((localPollTrace [] [{ name := "a" }]
      [{ name := "a", actionsStatus := "passing" }] [] "/sc"
      { staleDays := 30, abandonedDays := 90 } 0).getD [])
    (by decide)
  exact ⟨h.1, h.2.1⟩

/-! ## C8: remote-observation failure modes -/

/-- True of `error` broadcasts on the hub. -/
def isErrorBroadcast : Action → Bool
  | .broadcastError _ _ => true
  | _ => false

/-- C8 counterexample: the generic per-call failure is only logged: the
error dispatch of `githubPoll` broadcasts no `error` event for it,
contradicting the claim that each of the three failure modes is reported
as an error event on the hub. -/
theorem C8_counterexample :
    ghErrorActions (GHError.generic "exit status 1") = [] := rfl

/-- C8 (amended): the three failure modes are distinguished by typed
predicates at the scheduler boundary, independent of the message string;
tool-not-installed and tool-not-authenticated are each reported as an
`error` hub event with a distinct machine-readable kind, while the
generic per-call failure is logged only and broadcasts nothing; in all
three cases `githubPoll` returns without persisting or broadcasting a
snapshot, so the cycle simply waits for its next tick and the local
cycle is unaffected. -/
theorem C8_error_taxonomy :
    (∀ msg : String,
      IsGHNotFound (GHError.ghNotFoundError msg) = true ∧
      IsGHAuthError (GHError.ghNotFoundError msg) = false ∧
      IsGHNotFound (GHError.ghAuthError msg) = false ∧
      IsGHAuthError (GHError.ghAuthError msg) = true ∧
      IsGHNotFound (GHError.generic msg) = false ∧
      IsGHAuthError (GHError.generic msg) = false) ∧
    (∀ msg : String,
      ghErrorActions (GHError.ghNotFoundError msg) =
        [Action.broadcastError "gh_not_found"
          "gh CLI not found. Please install gh CLI."] ∧
      ghErrorActions (GHError.ghAuthError msg) =
        [Action.broadcastError "gh_auth_error"
          "gh CLI not authenticated. Please run 'gh auth login'."] ∧
      ghErrorActions (GHError.generic msg) = []) ∧
    (∀ e : GHError, ∀ cachedRepos prev : List Repo, ∀ state : RepoState,
      ∀ scanPath : String, ∀ th : LifecycleThresholds, ∀ now : Int,
      githubPollTrace (Except.error e) cachedRepos prev state scanPath th now =
        some (ghErrorActions e) ∧
      ∀ a ∈ ghErrorActions e, isSnapshotPersist a = false ∧
        isSnapshotBroadcast a = false) := by
  refine ⟨fun msg => ⟨rfl, rfl, rfl, rfl, rfl, rfl⟩,
    fun msg => ⟨rfl, rfl, rfl⟩, ?_⟩
  intro e cachedRepos prev state scanPath th now
  refine ⟨rfl, ?_⟩
  intro a ha
  cases e with
  | ghNotFoundError msg =>
    rcases List.mem_cons.mp ha with h | h
    · rw [h]; exact ⟨rfl, rfl⟩
    · cases h
  | ghAuthError msg =>
    rcases List.mem_cons.mp ha with h | h
    · rw [h]; exact ⟨rfl, rfl⟩
    · cases h
  | generic msg => cases ha

/-! ## Broadcast hub (internal/sse/sse.go) -/

/-- Go struct `sse.Client`: an SSE subscriber with its bounded outbound
channel, modelled as a queue with capacity (`NewHandler` uses capacity
10); `queue` holds events buffered in the channel. The payload type is a
parameter because `sse.Event.Data` is `interface\x7b\x7d`. -/
structure Client (α : Type) where
  id : String
  cap : Nat
  queue : List α

/-- State of the Go `sse.Hub` as seen by its single owning `Run` loop:
the client registry plus the ids sitting in the `unregister` channel
(the `go h.Unregister(id)` calls fired by `broadcastEvent` land there
and are processed by a later iteration of the loop). -/
structure HubState (α : Type) where
  clients : List (Client α)
  pendingUnregister : List String

/-- Go method `(*Hub).broadcastEvent`: for every client, a non-blocking
channel send; a client with room gets the event appended, a client whose
channel is full is left untouched and its id is sent to the unregister
channel (`go h.Unregister(id)`), without the publish waiting. -/
def broadcastEvent {α : Type} (e : α) (h : HubState α) : HubState α :=
  { clients := h.clients.map (fun c =>
      if c.queue.length < c.cap then { c with queue := c.queue ++ [e] } else c),
    pendingUnregister := h.pendingUnregister ++
      (h.clients.filter (fun c => ! decide (c.queue.length < c.cap))).map Client.id }

/-- The hub `Run` loop draining the unregister channel: each pending id
is removed from the registry (and its channel closed). -/
def processPendingUnregisters {α : Type} (h : HubState α) : HubState α :=
  { clients := h.pendingUnregister.foldl
      (fun cs i => cs.filter (fun c => ! decide (c.id = i))) h.clients,
    pendingUnregister := [] }

/-- Go method `(*Hub).ClientCount`. -/
def ClientCount {α : Type} (h : HubState α) : Nat :=
  h.clients.length

theorem foldl_filter_eq {α : Type} (ids : List String) (cs : List (Client α)) :
    ids.foldl (fun acc i => acc.filter (fun c => ! decide (c.id = i))) cs =
      cs.filter (fun c => ! decide (c.id ∈ ids)) := by
  induction ids generalizing cs with
  | nil => simp
  | cons i ids ih =>
    rw [List.foldl_cons, ih, List.filter_filter]
    apply List.filter_congr
    intro c _
    by_cases h1 : c.id = i
    · simp [h1]
    · by_cases h2 : c.id ∈ ids <;> simp [h1, h2]

/-- C7: on a publish, a subscriber with a full queue receives nothing and
its id is handed to the unregister path without the publish blocking on
it; once the hub loop drains those unregisters the subscriber is gone;
every subscriber with queue room receives the event and survives; and
the client count then equals the number of subscribers that had room. -/
theorem C7_hub_backpressure {α : Type} (h : HubState α) (e : α)
    (hnd : (h.clients.map Client.id).Nodup)
    (hpend : h.pendingUnregister = []) :
    (∀ c ∈ h.clients, ¬ c.queue.length < c.cap →
      ((∃ c1 ∈ (broadcastEvent e h).clients, c1.id = c.id ∧ c1.queue = c.queue) ∧
       c.id ∈ (broadcastEvent e h).pendingUnregister ∧
       (∀ c2 ∈ (processPendingUnregisters (broadcastEvent e h)).clients,
         c2.id ≠ c.id))) ∧
    (∀ c ∈ h.clients, c.queue.length < c.cap →
      ∃ c2 ∈ (processPendingUnregisters (broadcastEvent e h)).clients,
        c2.id = c.id ∧ c2.queue = c.queue ++ [e]) ∧
    ClientCount (processPendingUnregisters (broadcastEvent e h)) =
      h.clients.countP (fun c => decide (c.queue.length < c.cap)) := by
  have hidfull : ∀ c ∈ h.clients,
      (c.id ∈ (h.clients.filter
        (fun c => ! decide (c.queue.length < c.cap))).map Client.id ↔
      ¬ c.queue.length < c.cap) := by
    intro c hc
    constructor
    · intro hmem
      rcases List.mem_map.mp hmem with ⟨d, hd, hde⟩
      have hdm := List.mem_of_mem_filter hd
      have hdfull := List.of_mem_filter hd
      have hdc : d = c := List.inj_on_of_nodup_map hnd hdm hc hde
      subst hdc
      simpa using hdfull
    · intro hfull
      exact List.mem_map.mpr ⟨c, List.mem_filter.mpr ⟨hc, by simpa using hfull⟩, rfl⟩
  have hclients2 : (processPendingUnregisters (broadcastEvent e h)).clients =
      (h.clients.map (fun c =>
        if c.queue.length < c.cap then { c with queue := c.queue ++ [e] } else c)).filter
        (fun c => ! decide (c.id ∈ (h.clients.filter
          (fun c => ! decide (c.queue.length < c.cap))).map Client.id)) := by
    show ((broadcastEvent e h).pendingUnregister).foldl _ _ = _
    rw [foldl_filter_eq]
    unfold broadcastEvent
    rw [hpend, List.nil_append]
  have hsendid : ∀ c : Client α,
      (if c.queue.length < c.cap then { c with queue := c.queue ++ [e] } else c).id =
        c.id := by
    intro c
    by_cases hc : c.queue.length < c.cap <;> simp [hc]
  refine ⟨?_, ?_, ?_⟩
  · intro c hc hfull
    refine ⟨⟨(if c.queue.length < c.cap then { c with queue := c.queue ++ [e] } else c),
      List.mem_map_of_mem _ hc, ?_, ?_⟩, ?_, ?_⟩
    · exact hsendid c
    · rw [if_neg hfull]
    · show c.id ∈ h.pendingUnregister ++ _
      rw [hpend, List.nil_append]
      exact (hidfull c hc).mpr hfull
    · intro c2 hc2 hceq
      rw [hclients2] at hc2
      have hkeep := List.of_mem_filter hc2
      rw [hceq] at hkeep
      have : c.id ∈ (h.clients.filter
          (fun c => ! decide (c.queue.length < c.cap))).map Client.id :=
        (hidfull c hc).mpr hfull
      simp [this] at hkeep
  · intro c hc hroom
    refine ⟨(if c.queue.length < c.cap then { c with queue := c.queue ++ [e] } else c),
      ?_, ?_, ?_⟩
    · rw [hclients2]
      apply List.mem_filter.mpr
      refine ⟨List.mem_map_of_mem _ hc, ?_⟩
      rw [hsendid c]
      have : ¬ c.id ∈ (h.clients.filter
          (fun c => ! decide (c.queue.length < c.cap))).map Client.id := by
        intro hmem
        exact absurd hroom ((hidfull c hc).mp hmem)
      simpa using this
    · exact hsendid c
    · rw [if_pos hroom]
  · rw [ClientCount, hclients2, ← List.countP_eq_length_filter, List.countP_map]
    apply List.countP_congr
    intro c hc
    have hid : ((fun c => ! decide (c.id ∈ (h.clients.filter
        (fun c => ! decide (c.queue.length < c.cap))).map Client.id)) ∘
        (fun c => if c.queue.length < c.cap then
          { c with queue := c.queue ++ [e] } else c)) c =
        ! decide (c.id ∈ (h.clients.filter
          (fun c => ! decide (c.queue.length < c.cap))).map Client.id) := by
      show (! decide ((if c.queue.length < c.cap then
        { c with queue := c.queue ++ [e] } else c).id ∈ _)) = _
      rw [hsendid c]
    rw [hid]
    by_cases hroom : c.queue.length < c.cap
    · have : ¬ c.id ∈ (h.clients.filter
          (fun c => ! decide (c.queue.length < c.cap))).map Client.id := by
        intro hmem
        exact absurd hroom ((hidfull c hc).mp hmem)
      simp [this, hroom]
    · have : c.id ∈ (h.clients.filter
          (fun c => ! decide (c.queue.length < c.cap))).map Client.id :=
        (hidfull c hc).mpr hroom
      simp [this, hroom]

/-- C7 witness: a hub with a full subscriber f (capacity 1, one queued
event) and a subscriber r with room; publishing drops f, delivers to r,
and the count afterwards is 1. -/
theorem C7_hub_backpressure_witness :
    (∀ c2 ∈ (processPendingUnregisters (broadcastEvent (0 : Int)
        { clients := [{ id := "f", cap := 1, queue := [7] },
                      { id := "r", cap := 2, queue := [] }],
          pendingUnregister := [] })).clients, c2.id ≠ "f") ∧
    (∃ c2 ∈ (processPendingUnregisters (broadcastEvent (0 : Int)
        { clients := [{ id := "f", cap := 1, queue := [7] },
                      { id := "r", cap := 2, queue := [] }],
          pendingUnregister := [] })).clients, c2.id = "r" ∧ c2.queue = [] ++ [0]) ∧
    ClientCount (processPendingUnregisters (broadcastEvent (0 : Int)
        { clients := [{ id := "f", cap := 1, queue := [7] },
                      { id := "r", cap := 2, queue := [] }],
          pendingUnregister := [] })) = 1 := by
  have h := C7_hub_backpressure (α := Int)
    { clients := [{ id := "f", cap := 1, queue := [7] },
                  { id := "r", cap := 2, queue := [] }],
      pendingUnregister := [] } 0 (by decide) rfl
  refine ⟨?_, ?_, ?_⟩
  · intro c2 hc2
    exact (h.1 { id := "f", cap := 1, queue := [7] } (by simp) (by decide)).2.2 c2 hc2
  · exact h.2.1 { id := "r", cap := 2, queue := [] } (by simp) (by decide)
  · rw [h.2.2]
    decide

/-! ## Durable store (internal/cache/cache.go)

The JSON documents written by `encoding/json` are modelled as trees;
the byte rendering of a tree is injective and is abstracted away.
Timestamps are carried as their integer value (RFC3339 rendering is a
bijection). `omitempty` fields are omitted exactly when the Go value is
empty; a missing or null field decodes to the zero value, as
`json.Unmarshal` does. -/

/-- A JSON document. -/
inductive Json
  | null
  | bool (b : Bool)
  | num (n : Int)
  | str (s : String)
  | arr (elems : List Json)
  | obj (fields : List (String × Json))

/-- One struct field for the encoder: JSON key, whether it is emitted
(false models an `omitempty` field whose value is empty), and its
encoded value. -/
def flattenFields (fs : List (String × Bool × Json)) : List (String × Json) :=
  fs.foldr (fun f acc => (if f.2.1 then [(f.1, f.2.2)] else []) ++ acc) []

/-- Encoding of the nested completeness struct. -/
def marshalCompleteness (c : CompletenessInfo) : Json :=
  Json.obj [("hasDescription", Json.bool c.hasDescription),
            ("hasTopics", Json.bool c.hasTopics),
            ("hasHomepage", Json.bool c.hasHomepage),
            ("hasReadme", Json.bool c.hasReadme),
            ("hasLicense", Json.bool c.hasLicense),
            ("hasClaudeMd", Json.bool c.hasClaudeMd),
            ("hasAgentsMd", Json.bool c.hasAgentsMd),
            ("hasProjectJson", Json.bool c.hasProjectJson)]

/-- Encoding of `model.ReleaseInfo` (tags `tagName`, `publishedAt`). -/
def marshalRelease (ri : ReleaseInfo) : Json :=
  Json.obj [("tagName", Json.str ri.tagName),
            ("publishedAt", Json.num ri.publishedAt)]

/-- The field list of `model.Repo` in struct order with its JSON tags;
the Bool marks whether the field is emitted (`omitempty` semantics:
empty strings, false bools, empty slices and nil pointers are dropped;
`omitempty` has no effect on struct-typed fields such as timestamps,
which are always emitted). -/
def repoFieldSpec (r : Repo) : List (String × Bool × Json) :=
  [("name", true, Json.str r.name),
   ("fullName", true, Json.str r.fullName),
   ("visibility", true, Json.str r.visibility),
   ("cloned", true, Json.bool r.cloned),
   ("localPath", decide (r.localPath ≠ ""), Json.str r.localPath),
   ("branch", decide (r.branch ≠ ""), Json.str r.branch),
   ("dirty", r.dirty, Json.bool r.dirty),
   ("localLastCommit", true, Json.num r.localLastCommit),
   ("description", decide (r.description ≠ ""), Json.str r.description),
   ("homepageUrl", decide (r.homepageURL ≠ ""), Json.str r.homepageURL),
   ("language", decide (r.language ≠ ""), Json.str r.language),
   ("topics", decide (r.topics ≠ []), Json.arr (r.topics.map Json.str)),
   ("hasPages", true, Json.bool r.hasPages),
   ("completeness", true, marshalCompleteness r.completeness),
   ("githubLastPush", true, Json.num r.githubLastPush),
   ("openPrs", true, Json.num r.openPRs),
   ("actionsStatus", true, Json.str r.actionsStatus),
   ("latestRelease", r.latestRelease.isSome,
      match r.latestRelease with
      | some ri => marshalRelease ri
      | none => Json.null),
   ("newRelease", true, Json.bool r.newRelease),
   ("lifecycle", true, Json.str r.lifecycle)]

/-- `json.MarshalIndent` of one `model.Repo` value. -/
def marshalRepo (r : Repo) : Json :=
  Json.obj (flattenFields (repoFieldSpec r))

/-- `json.MarshalIndent` of the full repo list. -/
def marshalRepos (repos : List Repo) : Json :=
  Json.arr (repos.map marshalRepo)

/-- Decoder for a string field: missing or null yields the zero value,
as `json.Unmarshal` leaves absent fields untouched. -/
def jStr : Option Json → Except String String
  | none => Except.ok ""
  | some Json.null => Except.ok ""
  | some (Json.str s) => Except.ok s
  | some _ => Except.error "cannot unmarshal into string"

/-- Decoder for a bool field. -/
def jBool : Option Json → Except String Bool
  | none => Except.ok false
  | some Json.null => Except.ok false
  | some (Json.bool b) => Except.ok b
  | some _ => Except.error "cannot unmarshal into bool"

/-- Decoder for a numeric (timestamp or int) field. -/
def jNum : Option Json → Except String Int
  | none => Except.ok 0
  | some Json.null => Except.ok 0
  | some (Json.num n) => Except.ok n
  | some _ => Except.error "cannot unmarshal into number"

/-- Decoder for the elements of a `[]string` field. -/
def decodeStrings : List Json → Except String (List String)
  | [] => Except.ok []
  | Json.str s :: rest => do
    let tail ← decodeStrings rest
    Except.ok (s :: tail)
  | _ :: _ => Except.error "cannot unmarshal into []string"

/-- Decoder for a `[]string` field. -/
def jStrList : Option Json → Except String (List String)
  | none => Except.ok []
  | some Json.null => Except.ok []
  | some (Json.arr es) => decodeStrings es
  | some _ => Except.error "cannot unmarshal into []string"

/-- Decoder for the `*ReleaseInfo` field: missing or null is nil. -/
def jRelease : Option Json → Except String (Option ReleaseInfo)
  | none => Except.ok none
  | some Json.null => Except.ok none
  | some (Json.obj fields) => do
    let tag ← jStr (lastLookup fields "tagName")
    let pub ← jNum (lastLookup fields "publishedAt")
    Except.ok (some { tagName := tag, publishedAt := pub })
  | some _ => Except.error "cannot unmarshal into ReleaseInfo"

/-- Decoder for the completeness struct field. -/
def jCompleteness : Option Json → Except String CompletenessInfo
  | none => Except.ok {}
  | some Json.null => Except.ok {}
  | some (Json.obj fields) => do
    let hasDescription ← jBool (lastLookup fields "hasDescription")
    let hasTopics ← jBool (lastLookup fields "hasTopics")
    let hasHomepage ← jBool (lastLookup fields "hasHomepage")
    let hasReadme ← jBool (lastLookup fields "hasReadme")
    let hasLicense ← jBool (lastLookup fields "hasLicense")
    let hasClaudeMd ← jBool (lastLookup fields "hasClaudeMd")
    let hasAgentsMd ← jBool (lastLookup fields "hasAgentsMd")
    let hasProjectJson ← jBool (lastLookup fields "hasProjectJson")
    Except.ok { hasDescription := hasDescription, hasTopics := hasTopics,
                hasHomepage := hasHomepage, hasReadme := hasReadme,
                hasLicense := hasLicense, hasClaudeMd := hasClaudeMd,
                hasAgentsMd := hasAgentsMd, hasProjectJson := hasProjectJson }
  | some _ => Except.error "cannot unmarshal into CompletenessInfo"

/-- `json.Unmarshal` of one `model.Repo` element: every field is read by
its JSON tag; missing fields keep the zero value. -/
def unmarshalRepo : Json → Except String Repo
  | Json.null => Except.ok {}
  | Json.obj fields => do
    let name ← jStr (lastLookup fields "name")
    let fullName ← jStr (lastLookup fields "fullName")
    let visibility ← jStr (lastLookup fields "visibility")
    let cloned ← jBool (lastLookup fields "cloned")
    let localPath ← jStr (lastLookup fields "localPath")
    let branch ← jStr (lastLookup fields "branch")
    let dirty ← jBool (lastLookup fields "dirty")
    let localLastCommit ← jNum (lastLookup fields "localLastCommit")
    let description ← jStr (lastLookup fields "description")
    let homepageURL ← jStr (lastLookup fields "homepageUrl")
    let language ← jStr (lastLookup fields "language")
    let topics ← jStrList (lastLookup fields "topics")
    let hasPages ← jBool (lastLookup fields "hasPages")
    let completeness ← jCompleteness (lastLookup fields "completeness")
    let githubLastPush ← jNum (lastLookup fields "githubLastPush")
    let openPRs ← jNum (lastLookup fields "openPrs")
    let actionsStatus ← jStr (lastLookup fields "actionsStatus")
    let latestRelease ← jRelease (lastLookup fields "latestRelease")
    let newRelease ← jBool (lastLookup fields "newRelease")
    let lifecycle ← jStr (lastLookup fields "lifecycle")
    Except.ok { name := name, fullName := fullName, visibility := visibility,
                cloned := cloned, localPath := localPath, branch := branch,
                dirty := dirty, localLastCommit := localLastCommit,
                description := description, homepageURL := homepageURL,
                language := language, topics := topics, hasPages := hasPages,
                completeness := completeness, githubLastPush := githubLastPush,
                openPRs := openPRs, actionsStatus := actionsStatus,
                latestRelease := latestRelease, newRelease := newRelease,
                lifecycle := lifecycle }
  | _ => Except.error "cannot unmarshal into Repo"

/-- Decoder for the elements of the repo list. -/
def decodeRepos : List Json → Except String (List Repo)
  | [] => Except.ok []
  | j :: rest => do
    let r ← unmarshalRepo j
    let tail ← decodeRepos rest
    Except.ok (r :: tail)

/-- `json.Unmarshal` of the full repo list. -/
def unmarshalRepos : Json → Except String (List Repo)
  | Json.null => Except.ok []
  | Json.arr es => decodeRepos es
  | _ => Except.error "cannot unmarshal into []Repo"

/-- Encoding of one cursor entry: a nil `*RepoStateEntry` is JSON null. -/
def marshalStateEntry : Option RepoStateEntry → Json
  | none => Json.null
  | some e => Json.obj [("lastSeenReleaseTag", Json.str e.lastSeenReleaseTag)]

/-- `json.MarshalIndent` of the cursor map `cache.RepoState`. -/
def marshalState (st : RepoState) : Json :=
  Json.obj (st.map (fun p => (p.1, marshalStateEntry p.2)))

/-- Decoder for one cursor entry. -/
def unmarshalStateEntry : Json → Except String (Option RepoStateEntry)
  | Json.null => Except.ok none
  | Json.obj fields => do
    let tag ← jStr (lastLookup fields "lastSeenReleaseTag")
    Except.ok (some { lastSeenReleaseTag := tag })
  | _ => Except.error "cannot unmarshal into RepoStateEntry"

/-- Decoder for the cursor map entries. -/
def decodeStateEntries : List (String × Json) → Except String RepoState
  | [] => Except.ok []
  | (k, j) :: rest => do
    let e ← unmarshalStateEntry j
    let tail ← decodeStateEntries rest
    Except.ok ((k, e) :: tail)

/-- `json.Unmarshal` of the cursor map (a JSON null map decodes to the
empty map, matching the explicit nil-map check in `ReadState`). -/
def unmarshalState : Json → Except String RepoState
  | Json.null => Except.ok []
  | Json.obj fields => decodeStateEntries fields
  | _ => Except.error "cannot unmarshal into RepoState"

/-- Contents of a cache file on disk: an empty file or a JSON document
(the atomic temp-file-and-rename discipline is below the level of this
model; a read sees either the old or the new full content). -/
inductive FileData
  | empty
  | jsonDoc (j : Json)

/-- Go function `cache.ReadRepos`: a missing file (`none`) or an empty
file yields the empty list, not an error; otherwise the JSON document is
decoded. -/
def ReadRepos (file : Option FileData) : Except String (List Repo) :=
  match file with
  | none => Except.ok []
  | some FileData.empty => Except.ok []
  | some (FileData.jsonDoc j) => unmarshalRepos j

/-- Go function `cache.WriteRepos`: serialize the full list and write it
atomically; the result is the new file content. -/
def WriteRepos (repos : List Repo) : Option FileData :=
  some (FileData.jsonDoc (marshalRepos repos))

/-- Go function `cache.ReadState`: missing or empty file yields the
empty cursor map. -/
def ReadState (file : Option FileData) : Except String RepoState :=
  match file with
  | none => Except.ok []
  | some FileData.empty => Except.ok []
  | some (FileData.jsonDoc j) => unmarshalState j

/-- Go function `cache.WriteState`. -/
def WriteState (st : RepoState) : Option FileData :=
  some (FileData.jsonDoc (marshalState st))

/-! ## C6: round-trip persistence -/

theorem find?_append_eq {α : Type} (p : α → Bool) (xs ys : List α) :
    (xs ++ ys).find? p =
      match xs.find? p with
      | some a => some a
      | none => ys.find? p := by
  induction xs with
  | nil => rfl
  | cons x t ih =>
    by_cases hx : p x
    · rw [List.cons_append, List.find?_cons_of_pos _ hx, List.find?_cons_of_pos _ hx]
    · rw [List.cons_append, List.find?_cons_of_neg _ hx, List.find?_cons_of_neg _ hx, ih]

theorem lastLookup_append {α : Type} (xs ys : List (String × α)) (k : String) :
    lastLookup (xs ++ ys) k =
      match lastLookup ys k with
      | some v => some v
      | none => lastLookup xs k := by
  unfold lastLookup
  rw [List.reverse_append, find?_append_eq]
  cases ys.reverse.find? (fun p => decide (p.1 = k)) <;> rfl

theorem lastLookup_single_self {α : Type} (k : String) (v : α) :
    lastLookup [(k, v)] k = some v := by
  unfold lastLookup
  simp

theorem lastLookup_single_ne {α : Type} (k k2 : String) (v : α) (h : k2 ≠ k) :
    lastLookup [(k2, v)] k = none := by
  unfold lastLookup
  simp [h]

theorem flattenFields_cons (f : String × Bool × Json) (fs : List (String × Bool × Json)) :
    flattenFields (f :: fs) =
      (if f.2.1 then [(f.1, f.2.2)] else []) ++ flattenFields fs := rfl

theorem lastLookup_flatten_notmem (fs : List (String × Bool × Json)) (k : String)
    (hk : ∀ f ∈ fs, f.1 ≠ k) :
    lastLookup (flattenFields fs) k = none := by
  induction fs with
  | nil => rfl
  | cons f rest ih =>
    rw [flattenFields_cons, lastLookup_append,
      ih (fun x hx => hk x (by simp [hx]))]
    show lastLookup (if f.2.1 then [(f.1, f.2.2)] else []) k = none
    by_cases hb : f.2.1 = true
    · rw [if_pos hb]
      exact lastLookup_single_ne _ _ _ (hk f (by simp))
    · rw [if_neg hb]
      rfl

theorem lastLookup_flatten (fs : List (String × Bool × Json))
    (hnd : (fs.map Prod.fst).Nodup) (k : String) (b : Bool) (v : Json)
    (hmem : (k, b, v) ∈ fs) :
    lastLookup (flattenFields fs) k = if b then some v else none := by
  induction fs with
  | nil => cases hmem
  | cons f rest ih =>
    rw [flattenFields_cons, lastLookup_append]
    rcases List.mem_cons.mp hmem with rfl | ht
    · have hknot : ∀ x ∈ rest, x.1 ≠ k := by
        intro x hx hxk
        have : k ∈ rest.map Prod.fst := hxk ▸ List.mem_map_of_mem Prod.fst hx
        exact (List.nodup_cons.mp hnd).1 this
      rw [lastLookup_flatten_notmem rest k hknot]
      show lastLookup (if b then [(k, v)] else []) k = if b then some v else none
      cases b
      · rfl
      · rw [if_pos rfl, if_pos rfl]
        exact lastLookup_single_self k v
    · have hnd2 : (rest.map Prod.fst).Nodup := (List.nodup_cons.mp hnd).2
      rw [ih hnd2 ht]
      have hfk : f.1 ≠ k := by
        intro hfk
        have : k ∈ rest.map Prod.fst := List.mem_map_of_mem Prod.fst ht
        exact (List.nodup_cons.mp hnd).1 (hfk ▸ this)
      cases b
      · show lastLookup (if f.2.1 then [(f.1, f.2.2)] else []) k = none
        by_cases hb2 : f.2.1 = true
        · rw [if_pos hb2]
          exact lastLookup_single_ne _ _ _ hfk
        · rw [if_neg hb2]
          rfl
      · rfl

theorem jStr_opt (s : String) :
    jStr (if decide (s ≠ "") = true then some (Json.str s) else none) =
      Except.ok s := by
  by_cases h : s = "" <;> simp [h, jStr]

theorem jBool_opt (b : Bool) :
    jBool (if b then some (Json.bool b) else none) = Except.ok b := by
  cases b <;> rfl

theorem decodeStrings_map (ts : List String) :
    decodeStrings (ts.map Json.str) = Except.ok ts := by
  induction ts with
  | nil => rfl
  | cons s rest ih =>
    show (do
      let tail ← decodeStrings (rest.map Json.str)
      Except.ok (s :: tail)) = Except.ok (s :: rest)
    rw [ih]
    rfl

theorem jStrList_opt (ts : List String) :
    jStrList (if decide (ts ≠ []) = true then
      some (Json.arr (ts.map Json.str)) else none) = Except.ok ts := by
  by_cases h : ts = []
  · simp [h, jStrList]
  · simp [h, jStrList, decodeStrings_map]

theorem jRelease_some (ri : ReleaseInfo) :
    jRelease (some (marshalRelease ri)) = Except.ok (some ri) := rfl

theorem jRelease_opt (o : Option ReleaseInfo) :
    jRelease (if o.isSome = true then
      some (match o with | some ri => marshalRelease ri | none => Json.null)
      else none) = Except.ok o := by
  cases o with
  | none => rfl
  | some ri => exact jRelease_some ri

theorem jCompleteness_some (c : CompletenessInfo) :
    jCompleteness (some (marshalCompleteness c)) = Except.ok c := rfl

theorem unmarshalRepo_marshalRepo (r : Repo) :
    unmarshalRepo (marshalRepo r) = Except.ok r := by
  have hnd : ((repoFieldSpec r).map Prod.fst).Nodup := by
    have hkeys : (repoFieldSpec r).map Prod.fst =
      ["name", "fullName", "visibility", "cloned", "localPath", "branch", "dirty",
       "localLastCommit", "description", "homepageUrl", "language", "topics",
       "hasPages", "completeness", "githubLastPush", "openPrs", "actionsStatus",
       "latestRelease", "newRelease", "lifecycle"] := rfl
    rw [hkeys]
    decide
  have hF := lastLookup_flatten (repoFieldSpec r) hnd
  have h01 : lastLookup (flattenFields (repoFieldSpec r)) "name" =
      some (Json.str r.name) := by
    simpa using hF "name" true (Json.str r.name) (by simp [repoFieldSpec])
  have h02 : lastLookup (flattenFields (repoFieldSpec r)) "fullName" =
      some (Json.str r.fullName) := by
    simpa using hF "fullName" true (Json.str r.fullName) (by simp [repoFieldSpec])
  have h03 : lastLookup (flattenFields (repoFieldSpec r)) "visibility" =
      some (Json.str r.visibility) := by
    simpa using hF "visibility" true (Json.str r.visibility) (by simp [repoFieldSpec])
  have h04 : lastLookup (flattenFields (repoFieldSpec r)) "cloned" =
      some (Json.bool r.cloned) := by
    simpa using hF "cloned" true (Json.bool r.cloned) (by simp [repoFieldSpec])
  have h05 : lastLookup (flattenFields (repoFieldSpec r)) "localPath" =
      if decide (r.localPath ≠ "") = true then some (Json.str r.localPath)
      else none :=
    hF "localPath" (decide (r.localPath ≠ "")) (Json.str r.localPath)
      (by simp [repoFieldSpec])
  have h06 : lastLookup (flattenFields (repoFieldSpec r)) "branch" =
      if decide (r.branch ≠ "") = true then some (Json.str r.branch) else none :=
    hF "branch" (decide (r.branch ≠ "")) (Json.str r.branch)
      (by simp [repoFieldSpec])
  have h07 : lastLookup (flattenFields (repoFieldSpec r)) "dirty" =
      if r.dirty then some (Json.bool r.dirty) else none :=
    hF "dirty" r.dirty (Json.bool r.dirty) (by simp [repoFieldSpec])
  have h08 : lastLookup (flattenFields (repoFieldSpec r)) "localLastCommit" =
      some (Json.num r.localLastCommit) := by
    simpa using hF "localLastCommit" true (Json.num r.localLastCommit)
      (by simp [repoFieldSpec])
  have h09 : lastLookup (flattenFields (repoFieldSpec r)) "description" =
      if decide (r.description ≠ "") = true then some (Json.str r.description)
      else none :=
    hF "description" (decide (r.description ≠ "")) (Json.str r.description)
      (by simp [repoFieldSpec])
  have h10 : lastLookup (flattenFields (repoFieldSpec r)) "homepageUrl" =
      if decide (r.homepageURL ≠ "") = true then some (Json.str r.homepageURL)
      else none :=
    hF "homepageUrl" (decide (r.homepageURL ≠ "")) (Json.str r.homepageURL)
      (by simp [repoFieldSpec])
  have h11 : lastLookup (flattenFields (repoFieldSpec r)) "language" =
      if decide (r.language ≠ "") = true then some (Json.str r.language)
      else none :=
    hF "language" (decide (r.language ≠ "")) (Json.str r.language)
      (by simp [repoFieldSpec])
  have h12 : lastLookup (flattenFields (repoFieldSpec r)) "topics" =
      if decide (r.topics ≠ []) = true then
        some (Json.arr (r.topics.map Json.str)) else none :=
    hF "topics" (decide (r.topics ≠ [])) (Json.arr (r.topics.map Json.str))
      (by simp [repoFieldSpec])
  have h13 : lastLookup (flattenFields (repoFieldSpec r)) "hasPages" =
      some (Json.bool r.hasPages) := by
    simpa using hF "hasPages" true (Json.bool r.hasPages) (by simp [repoFieldSpec])
  have h14 : lastLookup (flattenFields (repoFieldSpec r)) "completeness" =
      some (marshalCompleteness r.completeness) := by
    simpa using hF "completeness" true (marshalCompleteness r.completeness)
      (by simp [repoFieldSpec])
  have h15 : lastLookup (flattenFields (repoFieldSpec r)) "githubLastPush" =
      some (Json.num r.githubLastPush) := by
    simpa using hF "githubLastPush" true (Json.num r.githubLastPush)
      (by simp [repoFieldSpec])
  have h16 : lastLookup (flattenFields (repoFieldSpec r)) "openPrs" =
      some (Json.num r.openPRs) := by
    simpa using hF "openPrs" true (Json.num r.openPRs) (by simp [repoFieldSpec])
  have h17 : lastLookup (flattenFields (repoFieldSpec r)) "actionsStatus" =
      some (Json.str r.actionsStatus) := by
    simpa using hF "actionsStatus" true (Json.str r.actionsStatus)
      (by simp [repoFieldSpec])
  have h18 : lastLookup (flattenFields (repoFieldSpec r)) "latestRelease" =
      if r.latestRelease.isSome = true then
        some (match r.latestRelease with
          | some ri => marshalRelease ri
          | none => Json.null) else none :=
    hF "latestRelease" r.latestRelease.isSome
      (match r.latestRelease with
        | some ri => marshalRelease ri
        | none => Json.null) (by simp [repoFieldSpec])
  have h19 : lastLookup (flattenFields (repoFieldSpec r)) "newRelease" =
      some (Json.bool r.newRelease) := by
    simpa using hF "newRelease" true (Json.bool r.newRelease)
      (by simp [repoFieldSpec])
  have h20 : lastLookup (flattenFields (repoFieldSpec r)) "lifecycle" =
      some (Json.str r.lifecycle) := by
    simpa using hF "lifecycle" true (Json.str r.lifecycle) (by simp [repoFieldSpec])
  show unmarshalRepo (Json.obj (flattenFields (repoFieldSpec r))) = Except.ok r
  simp only [unmarshalRepo]
  rw [h01, h02, h03, h04, h05, h06, h07, h08, h09, h10, h11, h12, h13, h14,
    h15, h16, h17, h18, h19, h20]
  rw [jStr_opt r.localPath, jStr_opt r.branch, jBool_opt r.dirty,
    jStr_opt r.description, jStr_opt r.homepageURL, jStr_opt r.language,
    jStrList_opt r.topics, jRelease_opt r.latestRelease,
    jCompleteness_some r.completeness]
  rfl

theorem decodeRepos_map (repos : List Repo) :
    decodeRepos (repos.map marshalRepo) = Except.ok repos := by
  induction repos with
  | nil => rfl
  | cons r rest ih =>
    show (do
      let x ← unmarshalRepo (marshalRepo r)
      let tail ← decodeRepos (rest.map marshalRepo)
      Except.ok (x :: tail)) = Except.ok (r :: rest)
    rw [unmarshalRepo_marshalRepo r, ih]
    rfl

theorem unmarshalStateEntry_marshal (e : Option RepoStateEntry) :
    unmarshalStateEntry (marshalStateEntry e) = Except.ok e := by
  cases e <;> rfl

theorem decodeStateEntries_map (st : RepoState) :
    decodeStateEntries (st.map (fun p => (p.1, marshalStateEntry p.2))) =
      Except.ok st := by
  induction st with
  | nil => rfl
  | cons p rest ih =>
    show (do
      let e ← unmarshalStateEntry (marshalStateEntry p.2)
      let tail ← decodeStateEntries (rest.map (fun p => (p.1, marshalStateEntry p.2)))
      Except.ok ((p.1, e) :: tail)) = Except.ok (p :: rest)
    rw [unmarshalStateEntry_marshal p.2, ih]
    rfl

/-- C6: writing the repo list and the cursor map and reading them back
yields the same structured value, and reading a missing or empty
snapshot file or cursor file yields the empty collection, not an
error. -/
theorem C6_cache_roundtrip :
    (∀ repos : List Repo, ReadRepos (WriteRepos repos) = Except.ok repos) ∧
    ReadRepos none = Except.ok [] ∧
    ReadRepos (some FileData.empty) = Except.ok [] ∧
    (∀ st : RepoState, ReadState (WriteState st) = Except.ok st) ∧
    ReadState none = Except.ok [] ∧
    ReadState (some FileData.empty) = Except.ok [] := by
  refine ⟨?_, rfl, rfl, ?_, rfl, rfl⟩
  · intro repos
    show unmarshalRepos (marshalRepos repos) = Except.ok repos
    show decodeRepos (repos.map marshalRepo) = Except.ok repos
    exact decodeRepos_map repos
  · intro st
    show unmarshalState (marshalState st) = Except.ok st
    show decodeStateEntries (st.map (fun p => (p.1, marshalStateEntry p.2))) =
      Except.ok st
    exact decodeStateEntries_map st

/-- C8 witness: the amended taxonomy applied at concrete errors: the
not-found error is recognised by type, the auth error broadcasts its
machine-readable kind, and a generic failure yields a defined trace with
no hub events. -/
theorem C8_error_taxonomy_witness :
    IsGHNotFound (GHError.ghNotFoundError "gh not found") = true ∧
    ghErrorActions (GHError.ghAuthError "auth") =
      [Action.broadcastError "gh_auth_error"
        "gh CLI not authenticated. Please run 'gh auth login'."] ∧
    githubPollTrace (Except.error (GHError.generic "exit status 1")) [] [] []
      "/sc" { staleDays := 30, abandonedDays := 90 } 0 = some [] := by
  have h := C8_error_taxonomy
  exact ⟨(h.1 "gh not found").1, (h.2.1 "auth").2.1,
    (h.2.2 (GHError.generic "exit status 1") [] [] [] "/sc"
      { staleDays := 30, abandonedDays := 90 } 0).1⟩

/-! ## C9: the new-release boolean across cycles -/

/-- C9 counterexample: the persisted snapshot file does carry the
boolean: the serialized form of a record with the flag set contains the
field `newRelease` with value true (the field has no omitempty and is
written by `cache.WriteRepos` every cycle). -/
theorem C9_counterexample :
    lastLookup (flattenFields (repoFieldSpec
      { name := "g", newRelease := true })) "newRelease" =
      some (Json.bool true) := rfl

theorem updateReleaseState_cons (st : RepoState) (r : Repo) (rest : List Repo) :
    updateReleaseState st (r :: rest) =
      updateReleaseState
        (match r.latestRelease with
         | some rel => stateSet st r.name rel.tagName
         | none => st) rest := rfl

/-- C9 (amended): the boolean is never retained into the next cycle's
computation even though the snapshot file records it: the cursor update
persists only names and tags and ignores the boolean; the local cycle's
reconstruction of remote partials from the cached snapshot ignores the
boolean; and each cycle's boolean is a function of the remote release
tag and the cursor alone. -/
theorem C9_newRelease_not_retained :
    (∀ st : RepoState, ∀ repos : List Repo, ∀ b : Bool,
      updateReleaseState st (repos.map (fun r => { r with newRelease := b })) =
        updateReleaseState st repos) ∧
    (∀ r : Repo, ∀ b : Bool,
      repoToGHPartial { r with newRelease := b } = repoToGHPartial r) ∧
    (∀ l : List (String × LocalRepo), ∀ g : List GitHubRepo, ∀ sp : String,
      ∀ st : RepoState, ∀ th : LifecycleThresholds, ∀ now : Int, ∀ n : String,
      (mergeOne l g sp st th now n).newRelease =
        (match ghLookup g n with
         | some gh =>
           match gh.latestRelease with
           | some rel =>
             (match lastLookup st n with
              | some (some entry) =>
                decide (entry.lastSeenReleaseTag ≠ rel.tagName)
              | _ => true)
           | none => false
         | none => false)) := by
  refine ⟨?_, ?_, ?_⟩
  · intro st repos b
    induction repos generalizing st with
    | nil => rfl
    | cons r rest ih =>
      rw [List.map_cons, updateReleaseState_cons, updateReleaseState_cons]
      exact ih _
  · intro r b
    cases r
    rfl
  · intro l g sp st th now n
    exact mergeOne_newRelease_eq l g sp st th now n

end Catscan
